import Mathlib

set_option maxHeartbeats 1000000

namespace VoxEngine

/-! Shallow embedding of the vox-engine data-collection pipeline:
the cache layer, the rate-limited fetch client, and the ingestion
reconciler (vote/session upserts, tweet batch insert, handle fix-up),
translated from `src/unnamed/part_001`, `src/lib/vote-scraper.ts` and
`src/lib/twitter-scraper.ts`. -/

/-- Substring containment on character lists (structural recursion, so it
evaluates in the kernel). -/
def containsSubL : List Char → List Char → Bool
  | [], sub => sub.isEmpty
  | c :: rest, sub => sub.isPrefixOf (c :: rest) || containsSubL rest sub

/-- JavaScript `String.prototype.includes`. -/
def jsIncludes (s sub : String) : Bool := containsSubL s.data sub.data

/-- Fuelled splitter on character lists: splits at every left-to-right,
non-overlapping occurrence of the (non-empty) separator, exactly like
JavaScript `String.prototype.split` with a string separator. The fuel is
an upper bound on the scanned length. -/
def splitOnFuel (sep : List Char) : Nat → List Char → List Char → List (List Char)
  | 0, l, acc => [acc.reverse ++ l]
  | _ + 1, [], acc => [acc.reverse]
  | fuel + 1, c :: rest, acc =>
    if sep.isPrefixOf (c :: rest) then
      acc.reverse :: splitOnFuel sep fuel (List.drop (sep.length - 1) rest) []
    else splitOnFuel sep fuel rest (c :: acc)

/-- JavaScript `String.prototype.split` on character lists (non-empty
separator). -/
def splitOnL (sep l : List Char) : List (List Char) := splitOnFuel sep l.length l []

/-- JavaScript `String.prototype.replace` with a plain-string pattern:
replaces only the first occurrence of the (non-empty) pattern. -/
def replaceFirstL : List Char → List Char → List Char → List Char
  | [], _pat, _rep => []
  | c :: rest, pat, rep =>
    if pat ≠ [] ∧ pat.isPrefixOf (c :: rest) then rep ++ List.drop (pat.length - 1) rest
    else c :: replaceFirstL rest pat rep

/-- JavaScript `String.prototype.trim` on character lists. -/
def trimL (l : List Char) : List Char :=
  ((l.dropWhile Char.isWhitespace).reverse.dropWhile Char.isWhitespace).reverse

/-- JavaScript `String.prototype.toLowerCase` (over the ASCII range used
by the stored names and handles). -/
def jsToLower (s : String) : String := ⟨s.data.map Char.toLower⟩

/-- `parseInt(s, 10)` on an all-digit string (structural analogue of
`String.toNat?`). -/
def toNatL (l : List Char) : Option Nat :=
  if l ≠ [] ∧ l.all Char.isDigit then
    some (l.foldl (fun n c => n * 10 + (c.toNat - 48)) 0)
  else none

/-! ## Cache layer (part_001 lines 9-58, 126-163) -/

/-- Cache TTL: 10 minutes in milliseconds (part_001 line 16). -/
def CACHE_TTL : Nat := 10 * 60 * 1000

/-- `CacheItem` from part_001 lines 9-12. -/
structure CacheItem (α : Type) where
  data : α
  timestamp : Nat
deriving DecidableEq

/-- The pair of stores from part_001 lines 45-51: the primary LRU cache
`entries` (TTL-checked on read) and the `stale` fallback map. -/
structure CacheState (α : Type) where
  entries : List (String × CacheItem α)
  stale : List (String × CacheItem α)
deriving DecidableEq

/-- Association-list lookup by key. -/
def assocGet (l : List (String × β)) (k : String) : Option β :=
  match l with
  | [] => none
  | (k', v) :: rest => if k' = k then some v else assocGet rest k

/-- Association-list write: `Map.set` / `LRUCache.set` semantics
(the key is bound to the new value, any previous binding is dropped). -/
def assocSet (l : List (String × β)) (k : String) (v : β) : List (String × β) :=
  (k, v) :: l.filter (fun p => p.1 ≠ k)

/-- Association-list delete: `cache.delete(key)`. -/
def assocDelete (l : List (String × β)) (k : String) : List (String × β) :=
  l.filter (fun p => p.1 ≠ k)

/-- `cache.get(key)` of the LRU cache: a stored entry is returned only
while unexpired (its age is below the TTL); an expired entry reads as a
miss. -/
def cacheGet (st : CacheState α) (key : String) (now : Nat) : Option (CacheItem α) :=
  match assocGet st.entries key with
  | none => none
  | some item => if now < item.timestamp + CACHE_TTL then some item else none

/-- `getCachedOrFetch` from part_001 lines 132-163, with the outcome of
`fetchFn` passed in as `fetchResult` (the function is invoked at most once;
the returned Bool records whether it was invoked). On a hit the cached
item is copied into the stale store and returned; on a miss a successful
fetch is stored in both stores; a failed fetch falls back to the stale
value when one exists, otherwise the error is rethrown. -/
def getCachedOrFetch (key : String) (fetchResult : Except String α) (now : Nat)
    (st : CacheState α) : Except String α × CacheState α × Bool :=
  match cacheGet st key now with
  | some cachedValue =>
      (Except.ok cachedValue.data,
       { st with stale := assocSet st.stale key cachedValue }, false)
  | none =>
    match fetchResult with
    | Except.ok data =>
      let cacheItem : CacheItem α := ⟨data, now⟩
      (Except.ok data,
       { entries := assocSet st.entries key cacheItem,
         stale := assocSet st.stale key cacheItem }, true)
    | Except.error e =>
      match assocGet st.stale key with
      | some staleValue => (Except.ok staleValue.data, st, true)
      | none => (Except.error e, st, true)

/-- Write-path invalidation (`cache.delete(key)`, part_001 lines 393-394
and 607): removes the key from the primary cache only. -/
def cacheDeleteOp (key : String) (st : CacheState α) : CacheState α :=
  { st with entries := assocDelete st.entries key }

/-- LRU capacity eviction or TTL pruning inside the `lru-cache` container:
removes some key from the primary cache only; the stale map is untouched. -/
def cacheEvictOp (key : String) (st : CacheState α) : CacheState α :=
  { st with entries := assocDelete st.entries key }

/-! ## Rate-limited fetch client (part_001 lines 14-18, 74-124) -/

/-- Maximum number of retries for rate-limited requests (part_001 line 17). -/
def MAX_RETRIES : Nat := 3

/-- Initial retry delay in milliseconds (part_001 line 18). -/
def INITIAL_RETRY_DELAY : Nat := 5000

/-- One structured error entry of a Twitter API error payload
(`errorData.errors`): a `title` and a `message` (an absent message is the
empty string). -/
structure TwitterErr where
  title : String
  message : String
deriving DecidableEq

/-- One HTTP response of the external API, as observed by the client:
status code, optional retry-after header (seconds), `response.ok`,
the structured error payload, the user-id payload of the username-lookup
endpoint, and an opaque success payload. -/
structure ApiResponse where
  status : Nat
  retryAfter : Option Nat
  ok : Bool
  errors : List TwitterErr
  userId : Option String
  payload : String
deriving DecidableEq

/-- Outcome of `rateLimitedFetch`: how many outbound calls were issued,
the backoff waits performed (in ms, one before each call after the first),
and either the response finally returned or the thrown error. -/
structure FetchTrace where
  calls : Nat
  waits : List Nat
  result : Except String ApiResponse

/-- Backoff delay chosen at part_001 lines 107-110: the server-provided
retry-after (converted to ms) when present, else
`INITIAL_RETRY_DELAY * 2 ^ retryCount`. -/
def backoffDelay (response : ApiResponse) (retryCount : Nat) : Nat :=
  match response.retryAfter with
  | some retryAfter => retryAfter * 1000
  | none => INITIAL_RETRY_DELAY * 2 ^ retryCount

/-- `rateLimitedFetch` from part_001 lines 74-124, with the network
modelled as the list of responses successive `fetch` calls produce.
A 429 response with `retryCount >= MAX_RETRIES` throws the
rate-limit-exceeded error; a 429 below the cap sleeps for `backoffDelay`
and retries with `retryCount + 1`; any other status is returned to the
caller as-is. (The quota pre-wait of lines 76-81 and the header
bookkeeping of lines 86-98 only add waiting time and do not affect which
calls are made or what is returned, and are omitted.) -/
def rateLimitedFetch : List ApiResponse → Nat → FetchTrace
  | [], _ => ⟨0, [], Except.error "fetch failed: no response"⟩
  | response :: rest, retryCount =>
    if response.status = 429 then
      if MAX_RETRIES ≤ retryCount then
        ⟨1, [], Except.error "Twitter API rate limit exceeded. Maximum retries (3) reached."⟩
      else
        let t := rateLimitedFetch rest (retryCount + 1)
        ⟨t.calls + 1, backoffDelay response retryCount :: t.waits, t.result⟩
    else ⟨1, [], Except.ok response⟩

/-! ## Username-to-id lookup (part_001 lines 239-293) -/

/-- The username clean-up of part_001 line 241:
`username.trim().replace('@', '').split('/').pop()?.split('?')[0] || ''`. -/
def cleanUsernameOf (username : String) : String :=
  ⟨(splitOnL ['?'] ((splitOnL ['/']
      (replaceFirstL (trimL username.data) ['@'] [])).getLastD [])).headD []⟩

/-- The error-classification loop of part_001 lines 269-277: the first
error entry that signals an authorization failure throws; the first that
signals "not found" returns a null id; other entries are skipped. `none`
means the loop fell through. -/
def scanErrors : List TwitterErr → Option (Except String (Option String))
  | [] => none
  | e :: rest =>
    if e.title = "Unauthorized" ∨ jsIncludes e.message "authorization" then
      some (Except.error "Twitter API authorization failed. Please check your API key.")
    else if e.title = "Not Found" ∨ jsIncludes e.message "not found" then
      some (Except.ok none)
    else scanErrors rest

/-- `errorData.errors.map((e) => e.message || e.title).join(', ')`
(part_001 line 279). -/
def joinedErrorMessage (errors : List TwitterErr) : String :=
  String.intercalate ", " (errors.map (fun e => if e.message ≠ "" then e.message else e.title))

/-- The body of the `fetchFn` passed to the cache in
`getUserIdFromUsername` (part_001 lines 248-287), before its surrounding
try/catch: issue the rate-limited call, classify a non-ok response's
error payload, and on success return `data.data?.id || null`. -/
def userLookupBody (responses : List ApiResponse) : Except String (Option String) × FetchTrace :=
  let tr := rateLimitedFetch responses 0
  match tr.result with
  | Except.error e => (Except.error e, tr)
  | Except.ok response =>
    if response.ok then (Except.ok response.userId, tr)
    else
      match scanErrors response.errors with
      | some decision => (decision, tr)
      | none =>
        if response.errors.isEmpty then
          (Except.error ("Twitter API error: " ++ toString response.status), tr)
        else
          (Except.error ("Twitter API error: " ++ joinedErrorMessage response.errors), tr)

/-- `getUserIdFromUsername` from part_001 lines 239-293. The inner
try/catch (lines 249-291) converts every thrown error into a `null`
result, so the `fetchFn` handed to `getCachedOrFetch` always resolves.
Returns the call's result, the updated cache state, and the number of
outbound API calls issued. -/
def getUserIdFromUsername (username : String) (responses : List ApiResponse) (now : Nat)
    (st : CacheState (Option String)) :
    Except String (Option String) × CacheState (Option String) × Nat :=
  let cleanUsername := cleanUsernameOf username
  if cleanUsername = "" then (Except.ok none, st, 0)
  else
    let cacheKey := "twitter_user_" ++ jsToLower cleanUsername
    let body := userLookupBody responses
    let fnResult : Except String (Option String) :=
      match body.1 with
      | Except.error _ => Except.ok none
      | Except.ok v => Except.ok v
    let r := getCachedOrFetch cacheKey fnResult now st
    (r.1, r.2.1, if r.2.2 then body.2.calls else 0)

/-! ## Relational state (src/src/db/schema.ts, src/drizzle schema)

Rows carry the columns the ingestion code reads or writes; serial primary
keys are modelled by `nextPoliticianId` / `nextVoteId` counters and
`new Date()` timestamps by a logical `clock` ticked at each insert. -/

structure SessionRow where
  id : Nat
  session_id : String
  title : String
  date : String
  vote_count : Nat
  created_at : Nat
deriving DecidableEq

structure PoliticianRow where
  id : Nat
  name : String
  party : String
  twitter_handle : Option String
  created_at : Nat
deriving DecidableEq

structure VoteRow where
  id : Nat
  session_id : Nat
  politician_id : Nat
  vote : String
  created_at : Nat
deriving DecidableEq

structure TweetRow where
  tweet_id : String
  politician_id : Nat
  text : String
  created_at : String
deriving DecidableEq

/-- The database state touched by the ingestion layer. -/
structure DB where
  sessions : List SessionRow
  politicians : List PoliticianRow
  votes : List VoteRow
  tweets : List TweetRow
  nextPoliticianId : Nat
  nextVoteId : Nat
  clock : Nat
deriving DecidableEq

/-- `sessionExists` from vote-scraper.ts lines 199-212. -/
def sessionExists (db : DB) (sessionId : Nat) : Bool :=
  db.sessions.any (fun s => s.id == sessionId)

/-- `saveVotingSession` from vote-scraper.ts lines 217-252: parse the id,
return the existing row's id if the session is already stored, otherwise
insert a new row with `vote_count = 0`. (`parseInt(sessionId, 10)` is
modelled on numeric session-id strings via `String.toNat?`.) -/
def saveVotingSession (db : DB) (sessionId : String) (title date : String) : DB × Nat :=
  let numericSessionId := (toNatL sessionId.data).getD 0
  if sessionExists db numericSessionId then
    (db, numericSessionId)
  else
    let row : SessionRow := ⟨numericSessionId, sessionId, title, date, 0, db.clock⟩
    ({ db with sessions := db.sessions ++ [row], clock := db.clock + 1 }, numericSessionId)

/-- The politician lookup of vote-scraper.ts lines 260-264:
`lower(name) = lower(politicianName)`, first match. -/
def findPolitician (db : DB) (politicianName : String) : Option PoliticianRow :=
  db.politicians.find? (fun p => jsToLower p.name == jsToLower politicianName)

/-- The politician id `saveVote` resolves `politicianName` to: the first
case-insensitive name match, or the id a newly created row receives. -/
def resolvedPid (db : DB) (politicianName : String) : Nat :=
  match findPolitician db politicianName with
  | some p => p.id
  | none => db.nextPoliticianId

/-- The find-or-create politician block of `saveVote`
(vote-scraper.ts lines 259-287): insert a new row when the
case-insensitive name lookup misses, otherwise update the found row's
party in place. Returns the new state and the resolved politician id. -/
def politicianUpsert (db : DB) (politicianName party : String) : DB × Nat :=
  match findPolitician db politicianName with
  | none =>
    let row : PoliticianRow := ⟨db.nextPoliticianId, politicianName, party, none, db.clock⟩
    ({ db with politicians := db.politicians ++ [row],
               nextPoliticianId := db.nextPoliticianId + 1,
               clock := db.clock + 1 }, db.nextPoliticianId)
  | some p =>
    ({ db with politicians :=
         db.politicians.map (fun q => if q.id = p.id then { q with party := party } else q) },
     p.id)

/-- The vote block of `saveVote` (vote-scraper.ts lines 289-322), with a
fault-injection flag for the vote_count increment statement (lines
316-321): update the vote value in place when a row for
(session, politician) exists, otherwise insert a new Vote row and then
increment the parent session's vote_count. The statements are
auto-committed individually (no transaction), so a failing increment
leaves the insert visible. -/
def voteUpsert (incFails : Bool) (db1 : DB) (sessionId politicianId : Nat)
    (vote : String) : DB × Except String Bool :=
  match db1.votes.find?
      (fun v => v.session_id == sessionId && v.politician_id == politicianId) with
  | some existingVote =>
    ({ db1 with votes :=
         db1.votes.map (fun v => if v.id = existingVote.id then { v with vote := vote } else v) },
     Except.ok true)
  | none =>
    let newRow : VoteRow := ⟨db1.nextVoteId, sessionId, politicianId, vote, db1.clock⟩
    let db2 := { db1 with votes := db1.votes ++ [newRow],
                          nextVoteId := db1.nextVoteId + 1,
                          clock := db1.clock + 1 }
    if incFails then
      (db2, Except.error "Failed to save vote")
    else
      ({ db2 with
          sessions := db2.sessions.map
            (fun s => if s.id = sessionId then { s with vote_count := s.vote_count + 1 }
              else s) },
       Except.ok true)

/-- `saveVote` from vote-scraper.ts lines 257-329: find-or-create the
politician, then upsert the vote; on an error the catch rethrows
`Failed to save vote` with every already-issued statement's effect left
visible (there is no enclosing transaction in the source). -/
def saveVoteRun (incFails : Bool) (db : DB) (sessionId : Nat)
    (politicianName party vote : String) : DB × Except String Bool :=
  let step1 := politicianUpsert db politicianName party
  voteUpsert incFails step1.1 sessionId step1.2 vote

/-- `saveVote` on the fault-free path. -/
def saveVote (db : DB) (sessionId : Nat) (politicianName party vote : String) : DB :=
  (saveVoteRun false db sessionId politicianName party vote).1

/-- The vote_count stored for session `sessionId` (sum over the matching
rows; exactly one matches in a well-formed state). -/
def sessionVoteCount (db : DB) (sessionId : Nat) : Nat :=
  ((db.sessions.filter (fun s => s.id == sessionId)).map (fun s => s.vote_count)).sum

/-! ## Tweet batch insert (part_001 lines 333-404) -/

/-- One tweet of an incoming batch (`tweetData` element). -/
structure TweetIn where
  id : String
  text : String
  created_at : String
deriving DecidableEq

/-- The external ids already stored for `politicianId`
(part_001 lines 348-354). -/
def existingTweetIdsOf (db : DB) (politicianId : Nat) : List String :=
  (db.tweets.filter (fun t => t.politician_id == politicianId)).map (fun t => t.tweet_id)

/-- `saveTweetsToDatabase` from part_001 lines 333-404, with a
fault-injection flag for the multi-row INSERT (lines 380-384). The whole
body runs between BEGIN and COMMIT, so a failed insert ROLLs BACK to the
incoming state and rethrows. Otherwise: skip tweets whose id is already
stored for the politician, insert the rest as one batch, return the
inserted count. -/
def saveTweetsRun (insertFails : Bool) (db : DB) (tweetData : List TweetIn)
    (politicianId : Nat) : DB × Except String Nat :=
  if tweetData.isEmpty then (db, Except.ok 0)
  else
    let existingTweetIds := existingTweetIdsOf db politicianId
    let values := tweetData.filter (fun t => !(existingTweetIds.contains t.id))
    if values.isEmpty then (db, Except.ok 0)
    else if insertFails then (db, Except.error "Error saving tweets to database")
    else
      ({ db with tweets :=
           db.tweets ++ values.map (fun t => ⟨t.id, politicianId, t.text, t.created_at⟩) },
       Except.ok values.length)

/-- `saveTweetsToDatabase` on the fault-free path: final state and the
saved count. -/
def saveTweetsToDatabase (db : DB) (tweetData : List TweetIn) (politicianId : Nat) :
    DB × Nat :=
  let r := saveTweetsRun false db tweetData politicianId
  (r.1, match r.2 with | Except.ok n => n | Except.error _ => 0)

/-! ## Handle fix-up (part_001 lines 496-617) -/

/-- The handle-cleaning steps of part_001 lines 525-555, returning the
cleaned handle and the `fixed` flag: strip everything up to
`twitter.com/` then `x.com/`, cut at the first `/` or `?`, drop a leading
`@`, and trim whitespace; `fixed` records whether any step fired. -/
def cleanTwitterHandle (handle : String) : String × Bool :=
  let l0 := handle.data
  let r1 := if containsSubL l0 "twitter.com/".data then
      ((splitOnL "twitter.com/".data l0).getLastD [], true) else (l0, false)
  let r2 := if containsSubL r1.1 "x.com/".data then
      ((splitOnL "x.com/".data r1.1).getLastD [], true) else r1
  let r3 := if containsSubL r2.1 ['/'] || containsSubL r2.1 ['?'] then
      ((splitOnL ['?'] ((splitOnL ['/'] r2.1).headD [])).headD [], true) else r2
  let r4 := if ['@'].isPrefixOf r3.1 then (r3.1.drop 1, true) else r3
  if r4.1 ≠ trimL r4.1 then (⟨trimL r4.1⟩, true) else (⟨r4.1⟩, r4.2)

/-- One entry of `results.details` (part_001 lines 567-573): `fixed` is
the cleaned handle for a changed row and `null` otherwise. -/
structure FixDetail where
  id : Nat
  name : String
  original : String
  fixed : Option String
  status : String
deriving DecidableEq

/-- The result record of `checkAndFixTwitterHandles`
(part_001 lines 500-505). -/
structure FixResults where
  total : Nat
  fixed : Nat
  errors : Nat
  details : List FixDetail
deriving DecidableEq

/-- One queued batch-update entry (part_001 lines 560-564). -/
structure HandleUpdate where
  id : Nat
  handle : String
  original : String
deriving DecidableEq

/-- The rows the fix-up scans: politicians whose twitter_handle IS NOT
NULL (part_001 lines 511-515). -/
def fixRowsOf (db : DB) : List PoliticianRow :=
  db.politicians.filter (fun p => p.twitter_handle ≠ none)

/-- The queued updates (part_001 lines 558-565): rows whose handle the
clean-up changed, provided the cleaned handle is non-empty. -/
def handleUpdatesOf (rows : List PoliticianRow) : List HandleUpdate :=
  rows.filterMap (fun p =>
    let originalHandle := p.twitter_handle.getD ""
    let c := cleanTwitterHandle originalHandle
    if c.2 ∧ c.1 ≠ "" then some ⟨p.id, c.1, originalHandle⟩ else none)

/-- The per-row report entries (part_001 lines 567-573). -/
def fixDetailsOf (rows : List PoliticianRow) : List FixDetail :=
  rows.map (fun p =>
    let originalHandle := p.twitter_handle.getD ""
    let c := cleanTwitterHandle originalHandle
    ⟨p.id, p.name, originalHandle,
     if c.2 then some c.1 else none,
     if c.2 then "fixed" else "ok"⟩)

/-- The single batch UPDATE statement of part_001 lines 588-598: each
politician row matched by a queued update id receives that update's
handle. -/
def applyHandleUpdates (ps : List PoliticianRow) (updates : List HandleUpdate) :
    List PoliticianRow :=
  updates.foldl
    (fun acc u => acc.map (fun p =>
      if p.id = u.id then { p with twitter_handle := some u.handle } else p))
    ps

/-- `checkAndFixTwitterHandles` from part_001 lines 496-617, with a
fault-injection flag for the batch UPDATE: the body runs inside
BEGIN/COMMIT, so a failed update ROLLs BACK to the incoming state and
rethrows. The per-row work is pure string manipulation and cannot throw,
so `results.errors` is always 0. -/
def checkAndFixRun (updateFails : Bool) (db : DB) : DB × Except String FixResults :=
  let rows := fixRowsOf db
  let updates := handleUpdatesOf rows
  let results : FixResults := ⟨rows.length, updates.length, 0, fixDetailsOf rows⟩
  if updates.isEmpty then (db, Except.ok results)
  else if updateFails then (db, Except.error "Error checking and fixing Twitter handles")
  else ({ db with politicians := applyHandleUpdates db.politicians updates }, Except.ok results)

/-- `checkAndFixTwitterHandles` on the fault-free path. -/
def checkAndFixTwitterHandles (db : DB) : DB × FixResults :=
  let r := checkAndFixRun false db
  (r.1, match r.2 with | Except.ok res => res | Except.error _ => ⟨0, 0, 0, []⟩)

/-! ## Association-list lemmas -/

theorem assocGet_filter_ne {β : Type} (l : List (String × β)) (k k' : String) (h : k' ≠ k) :
    assocGet (l.filter (fun p => p.1 ≠ k)) k' = assocGet l k' := by
  induction l with
  | nil => rfl
  | cons hd tl ih =>
    obtain ⟨a, b⟩ := hd
    by_cases hk : a = k
    · rw [List.filter_cons_of_neg (by simp [hk])]
      rw [ih]
      simp only [assocGet]
      rw [if_neg (by rw [hk]; exact fun hh => h hh.symm)]
    · rw [List.filter_cons_of_pos (by simp [hk])]
      simp only [assocGet]
      by_cases ha : a = k'
      · rw [if_pos ha, if_pos ha]
      · rw [if_neg ha, if_neg ha, ih]

theorem assocGet_assocSet_self {β : Type} (l : List (String × β)) (k : String) (v : β) :
    assocGet (assocSet l k v) k = some v := by
  simp [assocSet, assocGet]

theorem assocGet_assocSet_ne {β : Type} (l : List (String × β)) (k k' : String) (v : β)
    (h : k' ≠ k) : assocGet (assocSet l k v) k' = assocGet l k' := by
  simp only [assocSet, assocGet]
  rw [if_neg (fun hh => h hh.symm)]
  exact assocGet_filter_ne l k k' h

theorem assocGet_assocDelete_ne {β : Type} (l : List (String × β)) (k k' : String)
    (h : k' ≠ k) : assocGet (assocDelete l k) k' = assocGet l k' :=
  assocGet_filter_ne l k k' h

theorem assocGet_assocDelete_self {β : Type} (l : List (String × β)) (k : String) :
    assocGet (assocDelete l k) k = none := by
  induction l with
  | nil => rfl
  | cons hd tl ih =>
    by_cases hk : hd.1 = k
    · have : ¬ (hd.1 ≠ k) := by simp [hk]
      simpa [assocDelete, List.filter_cons, this] using ih
    · simpa [assocDelete, List.filter_cons, hk, assocGet] using ih

theorem cacheGet_eq_some {α : Type} {st : CacheState α} {key : String} {now : Nat}
    {item : CacheItem α} (h : cacheGet st key now = some item) :
    assocGet st.entries key = some item := by
  unfold cacheGet at h
  cases hg : assocGet st.entries key with
  | none => rw [hg] at h; exact absurd h (by simp)
  | some it =>
    rw [hg] at h
    dsimp only at h
    by_cases ht : now < it.timestamp + CACHE_TTL
    · rw [if_pos ht] at h; exact h
    · rw [if_neg ht] at h; exact absurd h (by simp)

/-- Closed form of `getCachedOrFetch` on a cache hit. -/
theorem getCachedOrFetch_hit {α : Type} {st : CacheState α} {key : String} {now : Nat}
    {item : CacheItem α} (h : cacheGet st key now = some item) (fr : Except String α) :
    getCachedOrFetch key fr now st =
      (Except.ok item.data, { st with stale := assocSet st.stale key item }, false) := by
  simp only [getCachedOrFetch, h]

/-- Closed form of `getCachedOrFetch` on a miss with successful compute. -/
theorem getCachedOrFetch_miss_ok {α : Type} {st : CacheState α} {key : String} {now : Nat}
    (h : cacheGet st key now = none) (d : α) :
    getCachedOrFetch key (Except.ok d) now st =
      (Except.ok d,
       ⟨assocSet st.entries key ⟨d, now⟩, assocSet st.stale key ⟨d, now⟩⟩, true) := by
  simp only [getCachedOrFetch, h]

/-- Closed form of `getCachedOrFetch` on a miss with failed compute and a
stale value present. -/
theorem getCachedOrFetch_miss_err_stale {α : Type} {st : CacheState α} {key : String}
    {now : Nat} {item : CacheItem α} (h : cacheGet st key now = none)
    (hs : assocGet st.stale key = some item) (e : String) :
    getCachedOrFetch key (Except.error e) now st = (Except.ok item.data, st, true) := by
  simp only [getCachedOrFetch, h, hs]

/-- Closed form of `getCachedOrFetch` on a miss with failed compute and
no stale value. -/
theorem getCachedOrFetch_miss_err_none {α : Type} {st : CacheState α} {key : String}
    {now : Nat} (h : cacheGet st key now = none) (hs : assocGet st.stale key = none)
    (e : String) :
    getCachedOrFetch key (Except.error e) now st = (Except.error e, st, true) := by
  simp only [getCachedOrFetch, h, hs]

/-! ## Cache-layer theorems -/

/-- Invariant of the cache pair: every key present in the primary cache
has the very same item in the stale store. -/
def cachePairInv {α : Type} (st : CacheState α) : Prop :=
  ∀ k item, assocGet st.entries k = some item → assocGet st.stale k = some item

/-- C6: if the compute function passed to `getCachedOrFetch` throws and a
previously stored stale value exists for the key, the call returns the
stale value instead of propagating the error; if no stale value exists,
the original error is propagated to the caller. (The compute function
only runs on a cache miss, hence the miss hypothesis.) -/
theorem cache_stale_fallback {α : Type} (key : String) (e : String) (now : Nat)
    (st : CacheState α) (hmiss : cacheGet st key now = none) :
    (∀ item, assocGet st.stale key = some item →
        getCachedOrFetch key (Except.error e) now st = (Except.ok item.data, st, true)) ∧
    (assocGet st.stale key = none →
        getCachedOrFetch key (Except.error e) now st = (Except.error e, st, true)) :=
  ⟨fun _ hst => getCachedOrFetch_miss_err_stale hmiss hst e,
   fun hst => getCachedOrFetch_miss_err_none hmiss hst e⟩

/-- Witness for C6 at a concrete state: key "k" is missing from the
primary cache but has stale item ⟨7, 0⟩, so the failed compute returns 7;
for absent key "fresh" the error propagates. -/
theorem cache_stale_fallback_witness :
    getCachedOrFetch "k" (Except.error "boom") 5 (⟨[], [("k", ⟨7, 0⟩)]⟩ : CacheState Nat) =
      (Except.ok 7, ⟨[], [("k", ⟨7, 0⟩)]⟩, true) ∧
    getCachedOrFetch "fresh" (Except.error "boom") 5 (⟨[], [("k", ⟨7, 0⟩)]⟩ : CacheState Nat) =
      (Except.error "boom", ⟨[], [("k", ⟨7, 0⟩)]⟩, true) := by
  constructor
  · exact (cache_stale_fallback "k" "boom" 5 ⟨[], [("k", ⟨7, 0⟩)]⟩ rfl).1 ⟨7, 0⟩ rfl
  · exact (cache_stale_fallback "fresh" "boom" 5 ⟨[], [("k", ⟨7, 0⟩)]⟩ rfl).2 rfl

/-- C7: `getCachedOrFetch` returns the cached value without invoking the
compute function when the key is present and unexpired; on a miss (or
after TTL expiry, since `cacheGet` reads an expired entry as a miss) it
invokes the compute function (invoked flag true, exactly once by
construction), stores the successful result under the key stamped `now`,
and returns it; a re-request before `now + CACHE_TTL` then hits without
invoking, and a re-request at or after `now + CACHE_TTL` invokes the
compute function again. -/
theorem cache_get_or_compute_ttl {α : Type} (key : String) (now : Nat) (st : CacheState α) :
    (∀ (fr : Except String α) item, cacheGet st key now = some item →
        (getCachedOrFetch key fr now st).1 = Except.ok item.data ∧
        (getCachedOrFetch key fr now st).2.2 = false) ∧
    (∀ (d : α), cacheGet st key now = none →
        (getCachedOrFetch key (Except.ok d) now st).1 = Except.ok d ∧
        (getCachedOrFetch key (Except.ok d) now st).2.2 = true ∧
        assocGet (getCachedOrFetch key (Except.ok d) now st).2.1.entries key =
          some ⟨d, now⟩ ∧
        (∀ (fr2 : Except String α) (t' : Nat), t' < now + CACHE_TTL →
          (getCachedOrFetch key fr2 t' (getCachedOrFetch key (Except.ok d) now st).2.1).1 =
            Except.ok d ∧
          (getCachedOrFetch key fr2 t' (getCachedOrFetch key (Except.ok d) now st).2.1).2.2 =
            false) ∧
        (∀ (fr2 : Except String α) (t'' : Nat), now + CACHE_TTL ≤ t'' →
          (getCachedOrFetch key fr2 t'' (getCachedOrFetch key (Except.ok d) now st).2.1).2.2 =
            true)) := by
  constructor
  · intro fr item hhit
    rw [getCachedOrFetch_hit hhit fr]
    exact ⟨rfl, rfl⟩
  · intro d hmiss
    rw [getCachedOrFetch_miss_ok hmiss d]
    have hget : assocGet (assocSet st.entries key (⟨d, now⟩ : CacheItem α)) key =
        some ⟨d, now⟩ := assocGet_assocSet_self st.entries key ⟨d, now⟩
    refine ⟨rfl, rfl, hget, ?_, ?_⟩
    · intro fr2 t' ht
      have hhit2 : cacheGet
          (⟨assocSet st.entries key ⟨d, now⟩, assocSet st.stale key ⟨d, now⟩⟩ : CacheState α)
          key t' = some ⟨d, now⟩ := by
        unfold cacheGet
        rw [hget]
        exact if_pos ht
      rw [getCachedOrFetch_hit hhit2 fr2]
      exact ⟨rfl, rfl⟩
    · intro fr2 t'' ht
      have hmiss2 : cacheGet
          (⟨assocSet st.entries key ⟨d, now⟩, assocSet st.stale key ⟨d, now⟩⟩ : CacheState α)
          key t'' = none := by
        unfold cacheGet
        rw [hget]
        exact if_neg (by change ¬ t'' < now + CACHE_TTL; omega)
      cases fr2 with
      | ok d2 => rw [getCachedOrFetch_miss_ok hmiss2 d2]
      | error e2 =>
        cases hst : assocGet
            (⟨assocSet st.entries key ⟨d, now⟩, assocSet st.stale key ⟨d, now⟩⟩ :
              CacheState α).stale key with
        | none => rw [getCachedOrFetch_miss_err_none hmiss2 hst e2]
        | some it => rw [getCachedOrFetch_miss_err_stale hmiss2 hst e2]

/-- Witness for C7 at a concrete run: a miss at time 0 computes and
stores 42 under "k"; a hit at time 1 returns it without computing. -/
theorem cache_get_or_compute_ttl_witness :
    ((getCachedOrFetch "k" (Except.ok 42) 0 (⟨[], []⟩ : CacheState Nat)).1 = Except.ok 42 ∧
      (getCachedOrFetch "k" (Except.ok 42) 0 (⟨[], []⟩ : CacheState Nat)).2.2 = true) ∧
    ((getCachedOrFetch "k" (Except.error "down") 1
        (getCachedOrFetch "k" (Except.ok 42) 0 (⟨[], []⟩ : CacheState Nat)).2.1).1 =
      Except.ok 42 ∧
      (getCachedOrFetch "k" (Except.error "down") 1
        (getCachedOrFetch "k" (Except.ok 42) 0 (⟨[], []⟩ : CacheState Nat)).2.1).2.2 = false) := by
  have h := (cache_get_or_compute_ttl "k" 0 (⟨[], []⟩ : CacheState Nat)).2 42 rfl
  exact ⟨⟨h.1, h.2.1⟩, h.2.2.2.1 (Except.error "down") 1 (by norm_num [CACHE_TTL])⟩

/-- C10: invariant of the fetch layer's cache pair. Every key present in
the primary cache has the same item in the stale store: the invariant is
preserved by every `getCachedOrFetch` step (which writes the item to the
stale store both on a hit and after a successful compute), by write-path
invalidation (`cache.delete`) and by LRU/TTL eviction (which touch only
the primary cache and never the stale store); and whenever
`getCachedOrFetch` returns a value for a key, the stale store afterwards
holds exactly that value for the key, while steps on other keys and
deletions leave it untouched — so the stale fallback is always the most
recent value successfully returned for the key. -/
theorem cache_pair_invariant {α : Type} :
    (∀ (key : String) (fr : Except String α) (now : Nat) (st : CacheState α),
        cachePairInv st → cachePairInv (getCachedOrFetch key fr now st).2.1) ∧
    (∀ (key : String) (st : CacheState α),
        cachePairInv st → cachePairInv (cacheDeleteOp key st)) ∧
    (∀ (key : String) (st : CacheState α),
        cachePairInv st → cachePairInv (cacheEvictOp key st)) ∧
    (∀ (key : String) (fr : Except String α) (now : Nat) (st : CacheState α) (v : α),
        (getCachedOrFetch key fr now st).1 = Except.ok v →
        ∃ item, assocGet (getCachedOrFetch key fr now st).2.1.stale key = some item ∧
          item.data = v) ∧
    (∀ (key key' : String) (fr : Except String α) (now : Nat) (st : CacheState α),
        key ≠ key' →
        assocGet (getCachedOrFetch key' fr now st).2.1.stale key = assocGet st.stale key) ∧
    (∀ (key key' : String) (st : CacheState α),
        assocGet (cacheDeleteOp key' st).stale key = assocGet st.stale key) := by
  have hdel : ∀ (key : String) (st : CacheState α),
      cachePairInv st → cachePairInv (cacheDeleteOp key st) := by
    intro key st hinv k it hent
    by_cases hk : k = key
    · rw [hk] at hent
      rw [show (cacheDeleteOp key st).entries = assocDelete st.entries key from rfl,
        assocGet_assocDelete_self] at hent
      exact absurd hent (by simp)
    · rw [show (cacheDeleteOp key st).entries = assocDelete st.entries key from rfl,
        assocGet_assocDelete_ne st.entries key k hk] at hent
      exact hinv k it hent
  refine ⟨?_, hdel, hdel, ?_, ?_, fun _ _ _ => rfl⟩
  · intro key fr now st hinv
    cases hg : cacheGet st key now with
    | some item =>
      rw [getCachedOrFetch_hit hg fr]
      intro k it hent
      by_cases hk : k = key
      · subst hk
        rw [cacheGet_eq_some hg] at hent
        rw [← Option.some.inj hent]
        exact assocGet_assocSet_self st.stale k item
      · rw [assocGet_assocSet_ne st.stale key k item hk]
        exact hinv k it hent
    | none =>
      cases fr with
      | ok d =>
        rw [getCachedOrFetch_miss_ok hg d]
        intro k it hent
        by_cases hk : k = key
        · subst hk
          rw [assocGet_assocSet_self] at hent
          rw [← Option.some.inj hent]
          exact assocGet_assocSet_self st.stale k ⟨d, now⟩
        · rw [assocGet_assocSet_ne st.entries key k ⟨d, now⟩ hk] at hent
          rw [assocGet_assocSet_ne st.stale key k ⟨d, now⟩ hk]
          exact hinv k it hent
      | error e =>
        cases hst : assocGet st.stale key with
        | some staleValue => rw [getCachedOrFetch_miss_err_stale hg hst e]; exact hinv
        | none => rw [getCachedOrFetch_miss_err_none hg hst e]; exact hinv
  · intro key fr now st v hok
    cases hg : cacheGet st key now with
    | some item =>
      rw [getCachedOrFetch_hit hg fr] at hok ⊢
      exact ⟨item, assocGet_assocSet_self st.stale key item, Except.ok.inj hok⟩
    | none =>
      cases fr with
      | ok d =>
        rw [getCachedOrFetch_miss_ok hg d] at hok ⊢
        exact ⟨⟨d, now⟩, assocGet_assocSet_self st.stale key ⟨d, now⟩, Except.ok.inj hok⟩
      | error e =>
        cases hst : assocGet st.stale key with
        | some staleValue =>
          rw [getCachedOrFetch_miss_err_stale hg hst e] at hok ⊢
          exact ⟨staleValue, hst, Except.ok.inj hok⟩
        | none =>
          rw [getCachedOrFetch_miss_err_none hg hst e] at hok
          exact absurd hok (by simp)
  · intro key key' fr now st hne
    cases hg : cacheGet st key' now with
    | some item =>
      rw [getCachedOrFetch_hit hg fr]
      exact assocGet_assocSet_ne st.stale key' key item hne
    | none =>
      cases fr with
      | ok d =>
        rw [getCachedOrFetch_miss_ok hg d]
        exact assocGet_assocSet_ne st.stale key' key ⟨d, now⟩ hne
      | error e =>
        cases hst : assocGet st.stale key' with
        | some staleValue => rw [getCachedOrFetch_miss_err_stale hg hst e]
        | none => rw [getCachedOrFetch_miss_err_none hg hst e]

/-- Witness for C10: starting from the empty cache, one computed value
establishes the invariant, and the stale store holds the value just
returned. -/
theorem cache_pair_invariant_witness :
    cachePairInv ((getCachedOrFetch "k" (Except.ok 5) 0 (⟨[], []⟩ : CacheState Nat)).2.1) ∧
    (∃ item, assocGet
        ((getCachedOrFetch "k" (Except.ok 5) 0 (⟨[], []⟩ : CacheState Nat)).2.1).stale "k" =
        some item ∧ item.data = 5) := by
  constructor
  · exact (cache_pair_invariant (α := Nat)).1 "k" (Except.ok 5) 0 ⟨[], []⟩
      (fun k item h => absurd h (by simp [assocGet]))
  · exact (cache_pair_invariant (α := Nat)).2.2.2.1 "k" (Except.ok 5) 0 ⟨[], []⟩ 5 rfl

/-! ## Rate-limited fetch client theorems -/

/-- Unfolding lemma: a 429 response below the retry cap waits
`backoffDelay` and retries. -/
theorem rateLimitedFetch_retry (response : ApiResponse) (rest : List ApiResponse)
    (retryCount : Nat) (h429 : response.status = 429) (hlt : retryCount < MAX_RETRIES) :
    rateLimitedFetch (response :: rest) retryCount =
      ⟨(rateLimitedFetch rest (retryCount + 1)).calls + 1,
       backoffDelay response retryCount :: (rateLimitedFetch rest (retryCount + 1)).waits,
       (rateLimitedFetch rest (retryCount + 1)).result⟩ := by
  conv_lhs => rw [rateLimitedFetch]
  rw [if_pos h429, if_neg (by omega)]

/-- Unfolding lemma: a non-429 response is returned after this single call. -/
theorem rateLimitedFetch_done (response : ApiResponse) (rest : List ApiResponse)
    (retryCount : Nat) (h : response.status ≠ 429) :
    rateLimitedFetch (response :: rest) retryCount = ⟨1, [], Except.ok response⟩ := by
  unfold rateLimitedFetch
  rw [if_neg h]

/-- Unfolding lemma: a 429 response at the retry cap throws the
rate-limit-exceeded error. -/
theorem rateLimitedFetch_exhausted (response : ApiResponse) (rest : List ApiResponse)
    (retryCount : Nat) (h429 : response.status = 429) (hge : MAX_RETRIES ≤ retryCount) :
    rateLimitedFetch (response :: rest) retryCount =
      ⟨1, [], Except.error "Twitter API rate limit exceeded. Maximum retries (3) reached."⟩ := by
  unfold rateLimitedFetch
  rw [if_pos h429, if_pos hge]

/-- C4: on a 429 the client waits the server-provided retry-after when
present, else `INITIAL_RETRY_DELAY * 2 ^ retryCount`, and retries up to
`MAX_RETRIES = 3` times. Three consecutive 429 responses followed by a
success produce exactly 4 outbound calls with a backoff wait before calls
2-4 (each wait equal to `backoffDelay` of the preceding 429 at retry
counts 0, 1, 2), and the success payload of call 4 is returned; four
consecutive 429 responses fail the call with the rate-limit-exceeded
error after exactly 4 calls. -/
theorem rate_limit_backoff (r1 r2 r3 r4 : ApiResponse) (rest : List ApiResponse)
    (h1 : r1.status = 429) (h2 : r2.status = 429) (h3 : r3.status = 429) :
    (r4.status ≠ 429 →
      rateLimitedFetch (r1 :: r2 :: r3 :: r4 :: rest) 0 =
        ⟨4, [backoffDelay r1 0, backoffDelay r2 1, backoffDelay r3 2], Except.ok r4⟩) ∧
    (r4.status = 429 →
      rateLimitedFetch (r1 :: r2 :: r3 :: r4 :: rest) 0 =
        ⟨4, [backoffDelay r1 0, backoffDelay r2 1, backoffDelay r3 2],
         Except.error "Twitter API rate limit exceeded. Maximum retries (3) reached."⟩) ∧
    (∀ retryAfter, r1.retryAfter = some retryAfter →
        backoffDelay r1 0 = retryAfter * 1000) ∧
    (∀ i, (r1 :: r2 :: r3 :: [] : List ApiResponse).get? i ≠ none →
        ∀ r, (r1 :: r2 :: r3 :: []).get? i = some r → r.retryAfter = none →
        backoffDelay r i = INITIAL_RETRY_DELAY * 2 ^ i) := by
  refine ⟨?_, ?_, ?_, ?_⟩
  · intro h4
    rw [rateLimitedFetch_retry r1 _ 0 h1 (by norm_num [MAX_RETRIES]),
        rateLimitedFetch_retry r2 _ 1 h2 (by norm_num [MAX_RETRIES]),
        rateLimitedFetch_retry r3 _ 2 h3 (by norm_num [MAX_RETRIES]),
        rateLimitedFetch_done r4 rest 3 h4]
  · intro h4
    rw [rateLimitedFetch_retry r1 _ 0 h1 (by norm_num [MAX_RETRIES]),
        rateLimitedFetch_retry r2 _ 1 h2 (by norm_num [MAX_RETRIES]),
        rateLimitedFetch_retry r3 _ 2 h3 (by norm_num [MAX_RETRIES]),
        rateLimitedFetch_exhausted r4 rest 3 h4 (by norm_num [MAX_RETRIES])]
  · intro retryAfter hra
    simp [backoffDelay, hra]
  · intro i _ r hr hnone
    simp [backoffDelay, hnone]

/-- Witness for C4: three concrete 429 responses (the second with a
retry-after of 7 seconds) then a 200 yield 4 calls, waits
[5000, 7000, 20000] and the success payload; a fourth 429 instead yields
the rate-limit error. -/
theorem rate_limit_backoff_witness :
    rateLimitedFetch
        [⟨429, none, false, [], none, ""⟩, ⟨429, some 7, false, [], none, ""⟩,
         ⟨429, none, false, [], none, ""⟩, ⟨200, none, true, [], none, "payload"⟩] 0 =
      ⟨4, [5000, 7000, 20000], Except.ok ⟨200, none, true, [], none, "payload"⟩⟩ ∧
    rateLimitedFetch
        [⟨429, none, false, [], none, ""⟩, ⟨429, some 7, false, [], none, ""⟩,
         ⟨429, none, false, [], none, ""⟩, ⟨429, none, false, [], none, ""⟩] 0 =
      ⟨4, [5000, 7000, 20000],
       Except.error "Twitter API rate limit exceeded. Maximum retries (3) reached."⟩ := by
  constructor
  · have h := (rate_limit_backoff ⟨429, none, false, [], none, ""⟩
      ⟨429, some 7, false, [], none, ""⟩ ⟨429, none, false, [], none, ""⟩
      ⟨200, none, true, [], none, "payload"⟩ [] rfl rfl rfl).1 (by norm_num)
    simpa [backoffDelay, INITIAL_RETRY_DELAY] using h
  · have h := (rate_limit_backoff ⟨429, none, false, [], none, ""⟩
      ⟨429, some 7, false, [], none, ""⟩ ⟨429, none, false, [], none, ""⟩
      ⟨429, none, false, [], none, ""⟩ [] rfl rfl rfl).2.1 rfl
    simpa [backoffDelay, INITIAL_RETRY_DELAY] using h

/-! ## Username-to-id lookup theorems -/

theorem cacheGet_empty {α : Type} (key : String) (now : Nat) :
    cacheGet (⟨[], []⟩ : CacheState α) key now = none := rfl

/-- Running `getUserIdFromUsername` with an empty cache: the result is
the inner body's outcome with every thrown error converted to a null id,
and the outbound call count is the body's. -/
theorem getUserIdFromUsername_run (username : String) (responses : List ApiResponse)
    (hclean : cleanUsernameOf username ≠ "") :
    ((getUserIdFromUsername username responses 0 ⟨[], []⟩).1 =
        match (userLookupBody responses).1 with
        | Except.error _ => Except.ok none
        | Except.ok v => Except.ok v) ∧
    (getUserIdFromUsername username responses 0 ⟨[], []⟩).2.2 =
      (userLookupBody responses).2.calls := by
  unfold getUserIdFromUsername
  rw [if_neg hclean]
  cases hb : (userLookupBody responses).1 with
  | error e => simp [hb, cacheGet_empty, getCachedOrFetch]
  | ok v => simp [hb, cacheGet_empty, getCachedOrFetch]

/-- The lookup body on a single response that is neither a 429 nor ok,
whose error payload classifies to an early decision: one call is made and
that decision is the outcome. -/
theorem userLookupBody_decision (r : ApiResponse) (d : Except String (Option String))
    (hstatus : r.status ≠ 429) (hok : r.ok = false)
    (hscan : scanErrors r.errors = some d) :
    userLookupBody [r] = (d, ⟨1, [], Except.ok r⟩) := by
  unfold userLookupBody
  rw [rateLimitedFetch_done r [] 0 hstatus]
  simp [hok, hscan]

/-- C5 counterexample: on an authorization-failure response the thrown
error is caught inside `getUserIdFromUsername` (part_001 lines 288-291)
and the call returns a null id normally — the error does NOT propagate to
the caller, contrary to the claim. Exactly one outbound call is made. -/
theorem user_lookup_auth_not_propagated :
    (getUserIdFromUsername "someuser"
        [⟨403, none, false, [⟨"Unauthorized", ""⟩], none, ""⟩] 0 ⟨[], []⟩).1 =
      Except.ok none ∧
    (getUserIdFromUsername "someuser"
        [⟨403, none, false, [⟨"Unauthorized", ""⟩], none, ""⟩] 0 ⟨[], []⟩).2.2 = 1 := by
  constructor <;> rfl

/-- C5 amended: a "not found" API response is a valid non-error outcome
yielding a null identifier; an authorization failure aborts the lookup
without any retry, but the thrown error is caught inside
`getUserIdFromUsername` and a null identifier is returned — it does not
propagate to the caller; and non-429 HTTP responses are never retried
(one response, one call, at any retry count). -/
theorem user_lookup_failure_semantics (username : String) (r : ApiResponse) (e : TwitterErr)
    (hclean : cleanUsernameOf username ≠ "") (hstatus : r.status ≠ 429)
    (hok : r.ok = false) (herrs : r.errors = [e]) (hmsg : e.message = "") :
    (e.title = "Not Found" →
      (getUserIdFromUsername username [r] 0 ⟨[], []⟩).1 = Except.ok none ∧
      (getUserIdFromUsername username [r] 0 ⟨[], []⟩).2.2 = 1) ∧
    (e.title = "Unauthorized" →
      (getUserIdFromUsername username [r] 0 ⟨[], []⟩).1 = Except.ok none ∧
      (getUserIdFromUsername username [r] 0 ⟨[], []⟩).2.2 = 1) ∧
    (∀ (rest : List ApiResponse) (retryCount : Nat),
      (rateLimitedFetch (r :: rest) retryCount).calls = 1) := by
  have hrun := getUserIdFromUsername_run username [r] hclean
  refine ⟨?_, ?_, fun rest retryCount => by rw [rateLimitedFetch_done r rest retryCount hstatus]⟩
  · intro htitle
    have hscan : scanErrors r.errors = some (Except.ok none) := by
      rw [herrs]
      unfold scanErrors
      rw [if_neg (by rw [htitle, hmsg]; decide), if_pos (by rw [htitle]; exact Or.inl rfl)]
    have hbody := userLookupBody_decision r (Except.ok none) hstatus hok hscan
    constructor
    · rw [hrun.1, hbody]
    · rw [hrun.2, hbody]
  · intro htitle
    have hscan : scanErrors r.errors =
        some (Except.error "Twitter API authorization failed. Please check your API key.") := by
      rw [herrs]
      unfold scanErrors
      rw [if_pos (by rw [htitle]; exact Or.inl rfl)]
    have hbody := userLookupBody_decision r
      (Except.error "Twitter API authorization failed. Please check your API key.")
      hstatus hok hscan
    constructor
    · rw [hrun.1, hbody]
    · rw [hrun.2, hbody]

/-- Witness for the amended C5 at concrete inputs: a "Not Found" response
for user "ghost" yields a null id in one call; an "Unauthorized" response
also yields a null id in one call; and that non-429 response is not
retried at any retry count (instantiated at 2). -/
theorem user_lookup_failure_semantics_witness :
    ((getUserIdFromUsername "ghost" [⟨404, none, false, [⟨"Not Found", ""⟩], none, ""⟩]
        0 ⟨[], []⟩).1 = Except.ok none ∧
      (getUserIdFromUsername "ghost" [⟨404, none, false, [⟨"Not Found", ""⟩], none, ""⟩]
        0 ⟨[], []⟩).2.2 = 1) ∧
    (rateLimitedFetch [⟨404, none, false, [⟨"Not Found", ""⟩], none, ""⟩] 2).calls = 1 := by
  have h := user_lookup_failure_semantics "ghost" ⟨404, none, false, [⟨"Not Found", ""⟩], none, ""⟩
    ⟨"Not Found", ""⟩ (by decide) (by decide) rfl rfl rfl
  exact ⟨h.1 rfl, h.2.2 [] 2⟩

/-! ## Vote upsert step lemmas -/

/-- The politician step resolves the name to `resolvedPid`. -/
theorem politicianUpsert_pid (db : DB) (politicianName party : String) :
    (politicianUpsert db politicianName party).2 = resolvedPid db politicianName := by
  unfold politicianUpsert resolvedPid
  cases findPolitician db politicianName <;> rfl

theorem politicianUpsert_sessions (db : DB) (politicianName party : String) :
    (politicianUpsert db politicianName party).1.sessions = db.sessions := by
  unfold politicianUpsert
  cases findPolitician db politicianName <;> rfl

theorem politicianUpsert_votes (db : DB) (politicianName party : String) :
    (politicianUpsert db politicianName party).1.votes = db.votes := by
  unfold politicianUpsert
  cases findPolitician db politicianName <;> rfl

theorem politicianUpsert_tweets (db : DB) (politicianName party : String) :
    (politicianUpsert db politicianName party).1.tweets = db.tweets := by
  unfold politicianUpsert
  cases findPolitician db politicianName <;> rfl

theorem politicianUpsert_nextVoteId (db : DB) (politicianName party : String) :
    (politicianUpsert db politicianName party).1.nextVoteId = db.nextVoteId := by
  unfold politicianUpsert
  cases findPolitician db politicianName <;> rfl

/-- Closed form of the vote step when the (session, politician) pair is
already stored: the found row's vote value is overwritten in place. -/
theorem voteUpsert_update {db1 : DB} {sessionId politicianId : Nat} {existingVote : VoteRow}
    (hfind : db1.votes.find?
      (fun v => v.session_id == sessionId && v.politician_id == politicianId) =
      some existingVote) (incFails : Bool) (vote : String) :
    voteUpsert incFails db1 sessionId politicianId vote =
      ({ db1 with
          votes := db1.votes.map
            (fun v => if v.id = existingVote.id then { v with vote := vote } else v) },
       Except.ok true) := by
  unfold voteUpsert
  rw [hfind]

/-- Closed form of the vote step on a fresh pair without fault: the row
is appended and the session's vote_count incremented. -/
theorem voteUpsert_insert {db1 : DB} {sessionId politicianId : Nat}
    (hfind : db1.votes.find?
      (fun v => v.session_id == sessionId && v.politician_id == politicianId) = none)
    (vote : String) :
    voteUpsert false db1 sessionId politicianId vote =
      ({ db1 with
          votes := db1.votes ++ [⟨db1.nextVoteId, sessionId, politicianId, vote, db1.clock⟩],
          nextVoteId := db1.nextVoteId + 1,
          clock := db1.clock + 1,
          sessions := db1.sessions.map
            (fun s => if s.id = sessionId then { s with vote_count := s.vote_count + 1 }
              else s) },
       Except.ok true) := by
  unfold voteUpsert
  rw [hfind]
  rfl

/-- Closed form of the vote step on a fresh pair with the increment
failing: the appended row stays visible, the sessions are untouched, and
the error is raised. -/
theorem voteUpsert_insert_fail {db1 : DB} {sessionId politicianId : Nat}
    (hfind : db1.votes.find?
      (fun v => v.session_id == sessionId && v.politician_id == politicianId) = none)
    (vote : String) :
    voteUpsert true db1 sessionId politicianId vote =
      ({ db1 with
          votes := db1.votes ++ [⟨db1.nextVoteId, sessionId, politicianId, vote, db1.clock⟩],
          nextVoteId := db1.nextVoteId + 1,
          clock := db1.clock + 1 },
       Except.error "Failed to save vote") := by
  unfold voteUpsert
  rw [hfind]
  rfl

/-! ## Transactionality (C1) -/

/-- C1 counterexample: `saveVote` issues its statements without any
enclosing transaction (vote-scraper.ts lines 257-329 contain no
BEGIN/COMMIT and no `db.transaction`), so when the vote_count increment
fails after the Vote row insert, the Vote row REMAINS visible while the
count is unchanged — contradicting the claim that neither is visible.
Concrete run: one stored session (id 1, vote_count 0), no politicians,
no votes; `saveVote(1, "Alice", "ODS", "yes")` with the increment
failing. -/
theorem save_vote_not_atomic :
    ((saveVoteRun true ⟨[⟨1, "1", "Session 1", "2024-01-01", 0, 0⟩], [], [], [], 1, 1, 10⟩
        1 "Alice" "ODS" "yes").2 = Except.error "Failed to save vote") ∧
    ((saveVoteRun true ⟨[⟨1, "1", "Session 1", "2024-01-01", 0, 0⟩], [], [], [], 1, 1, 10⟩
        1 "Alice" "ODS" "yes").1.votes =
      [⟨1, 1, 1, "yes", 11⟩]) ∧
    (sessionVoteCount
        (saveVoteRun true ⟨[⟨1, "1", "Session 1", "2024-01-01", 0, 0⟩], [], [], [], 1, 1, 10⟩
          1 "Alice" "ODS" "yes").1 1 = 0) := by
  refine ⟨rfl, by decide, by decide⟩

/-- C1 amended: the two batch writes are transactional — on a failed
multi-row INSERT, `saveTweetsToDatabase` rolls back to the incoming state
and re-raises, and on a failed batch UPDATE, `checkAndFixTwitterHandles`
rolls back to the incoming state and re-raises — but `saveVote` is not:
its statements run without a transaction, so when the vote_count
increment fails after the Vote row insert, the error is re-raised yet the
new Vote row stays visible (one more row) while every session's
vote_count is unchanged. -/
theorem ingestion_transactionality (db : DB) :
    (∀ (tweetData : List TweetIn) (politicianId : Nat),
        (saveTweetsRun true db tweetData politicianId).1 = db) ∧
    (∀ (tweetData : List TweetIn) (politicianId : Nat),
        tweetData.isEmpty = false →
        (tweetData.filter
          (fun t => !((existingTweetIdsOf db politicianId).contains t.id))).isEmpty = false →
        (saveTweetsRun true db tweetData politicianId).2 =
          Except.error "Error saving tweets to database") ∧
    ((checkAndFixRun true db).1 = db) ∧
    ((handleUpdatesOf (fixRowsOf db)).isEmpty = false →
        (checkAndFixRun true db).2 = Except.error "Error checking and fixing Twitter handles") ∧
    (∀ (sessionId : Nat) (name party vote : String),
        db.votes.find? (fun v => v.session_id == sessionId &&
            v.politician_id == resolvedPid db name) = none →
        (saveVoteRun true db sessionId name party vote).2 = Except.error "Failed to save vote" ∧
        (saveVoteRun true db sessionId name party vote).1.votes.length = db.votes.length + 1 ∧
        (saveVoteRun true db sessionId name party vote).1.sessions = db.sessions) := by
  refine ⟨?_, ?_, ?_, ?_, ?_⟩
  · intro tweetData politicianId
    unfold saveTweetsRun
    by_cases h1 : tweetData.isEmpty
    · rw [if_pos h1]
    · rw [if_neg h1]
      dsimp only
      by_cases h2 : (tweetData.filter
          (fun t => !((existingTweetIdsOf db politicianId).contains t.id))).isEmpty
      · rw [if_pos h2]
      · rw [if_neg h2, if_pos rfl]
  · intro tweetData politicianId h1 h2
    unfold saveTweetsRun
    rw [if_neg (by rw [h1]; exact Bool.false_ne_true)]
    dsimp only
    rw [if_neg (by rw [h2]; exact Bool.false_ne_true), if_pos rfl]
  · unfold checkAndFixRun
    by_cases h : (handleUpdatesOf (fixRowsOf db)).isEmpty
    · rw [if_pos h]
    · rw [if_neg h, if_pos rfl]
  · intro h
    unfold checkAndFixRun
    rw [if_neg (by rw [h]; exact Bool.false_ne_true), if_pos rfl]
  · intro sessionId name party vote habsent
    have hfind : (politicianUpsert db name party).1.votes.find?
        (fun v => v.session_id == sessionId &&
          v.politician_id == (politicianUpsert db name party).2) = none := by
      rw [politicianUpsert_votes, politicianUpsert_pid]
      exact habsent
    have hrun : saveVoteRun true db sessionId name party vote =
        ({ (politicianUpsert db name party).1 with
            votes := (politicianUpsert db name party).1.votes ++
              [⟨(politicianUpsert db name party).1.nextVoteId, sessionId,
                (politicianUpsert db name party).2, vote,
                (politicianUpsert db name party).1.clock⟩],
            nextVoteId := (politicianUpsert db name party).1.nextVoteId + 1,
            clock := (politicianUpsert db name party).1.clock + 1 },
         Except.error "Failed to save vote") := by
      show voteUpsert true (politicianUpsert db name party).1 sessionId
          (politicianUpsert db name party).2 vote = _
      exact voteUpsert_insert_fail hfind vote
    rw [hrun]
    refine ⟨rfl, ?_, ?_⟩
    · dsimp only
      rw [List.length_append, politicianUpsert_votes]
      rfl
    · exact politicianUpsert_sessions db name party

/-- Witness for the amended C1 at concrete inputs: a one-tweet batch
whose insert fails leaves the database unchanged with the error
re-raised; a fixable handle whose batch update fails leaves the database
unchanged with the error re-raised; and a fresh vote whose increment
fails leaves one extra Vote row with sessions unchanged. -/
theorem ingestion_transactionality_witness :
    ((saveTweetsRun true ⟨[], [⟨1, "Jane", "P", some "@jane", 0⟩], [], [], 2, 1, 10⟩
        [⟨"t1", "hello", "2024-01-01"⟩] 1).1 =
      ⟨[], [⟨1, "Jane", "P", some "@jane", 0⟩], [], [], 2, 1, 10⟩) ∧
    ((saveTweetsRun true ⟨[], [⟨1, "Jane", "P", some "@jane", 0⟩], [], [], 2, 1, 10⟩
        [⟨"t1", "hello", "2024-01-01"⟩] 1).2 =
      Except.error "Error saving tweets to database") ∧
    ((checkAndFixRun true ⟨[], [⟨1, "Jane", "P", some "@jane", 0⟩], [], [], 2, 1, 10⟩).1 =
      ⟨[], [⟨1, "Jane", "P", some "@jane", 0⟩], [], [], 2, 1, 10⟩) ∧
    ((checkAndFixRun true ⟨[], [⟨1, "Jane", "P", some "@jane", 0⟩], [], [], 2, 1, 10⟩).2 =
      Except.error "Error checking and fixing Twitter handles") ∧
    ((saveVoteRun true ⟨[], [⟨1, "Jane", "P", some "@jane", 0⟩], [], [], 2, 1, 10⟩
        5 "Jane" "P" "no").2 = Except.error "Failed to save vote") ∧
    ((saveVoteRun true ⟨[], [⟨1, "Jane", "P", some "@jane", 0⟩], [], [], 2, 1, 10⟩
        5 "Jane" "P" "no").1.votes.length = 1) := by
  have h := ingestion_transactionality ⟨[], [⟨1, "Jane", "P", some "@jane", 0⟩], [], [], 2, 1, 10⟩
  have h5 := h.2.2.2.2 5 "Jane" "P" "no" (by decide)
  exact ⟨h.1 [⟨"t1", "hello", "2024-01-01"⟩] 1,
    h.2.1 [⟨"t1", "hello", "2024-01-01"⟩] 1 (by decide) (by decide),
    h.2.2.1,
    h.2.2.2.1 (by decide),
    h5.1, h5.2.1⟩

/-! ## Tweet batch insert theorems (C9) -/

theorem length_filter_split {α : Type} (l : List α) (p : α → Bool) :
    l.length = (l.filter p).length + (l.filter (fun a => !(p a))).length := by
  induction l with
  | nil => rfl
  | cons hd tl ih =>
    by_cases h : p hd
    · simp [List.filter_cons, h, ih]; omega
    · simp only [List.filter_cons, h]
      simp [h, ih]
      omega

/-- Closed form of the fault-free `saveTweetsToDatabase`: the rows whose
external id is not yet stored for the politician are appended, and their
number is returned. -/
theorem saveTweetsToDatabase_spec (db : DB) (tweetData : List TweetIn) (politicianId : Nat) :
    saveTweetsToDatabase db tweetData politicianId =
      ({ db with
          tweets := db.tweets ++
            (tweetData.filter
              (fun t => !((existingTweetIdsOf db politicianId).contains t.id))).map
              (fun t => ⟨t.id, politicianId, t.text, t.created_at⟩) },
       (tweetData.filter
         (fun t => !((existingTweetIdsOf db politicianId).contains t.id))).length) := by
  unfold saveTweetsToDatabase saveTweetsRun
  by_cases h1 : tweetData.isEmpty
  · rw [if_pos h1]
    have he : tweetData = [] := List.isEmpty_iff.mp h1
    subst he
    simp
  · rw [if_neg h1]
    dsimp only
    by_cases h2 : (tweetData.filter
        (fun t => !((existingTweetIdsOf db politicianId).contains t.id))).isEmpty
    · rw [if_pos h2]
      have he := List.isEmpty_iff.mp h2
      rw [he]
      simp
    · rw [if_neg h2]
      rfl

/-- After a batch insert, the politician's stored external ids are the
previous ones followed by the ids just inserted. -/
theorem existingTweetIdsOf_after (db : DB) (tweetData : List TweetIn) (politicianId : Nat) :
    existingTweetIdsOf (saveTweetsToDatabase db tweetData politicianId).1 politicianId =
      existingTweetIdsOf db politicianId ++
      (tweetData.filter
        (fun t => !((existingTweetIdsOf db politicianId).contains t.id))).map
        TweetIn.id := by
  rw [saveTweetsToDatabase_spec]
  show existingTweetIdsOf
      ({ db with tweets := db.tweets ++ _ }) politicianId = _
  unfold existingTweetIdsOf
  dsimp only
  rw [List.filter_append, List.map_append]
  congr 1
  rw [List.filter_map]
  have hp : ((fun r : TweetRow => r.politician_id == politicianId) ∘
      (fun t : TweetIn => (⟨t.id, politicianId, t.text, t.created_at⟩ : TweetRow))) =
      fun _ => true := by
    funext t; simp
  rw [hp, List.filter_true, List.map_map]
  exact List.map_congr_left (fun t _ => rfl)

/-- C9: `saveTweetsToDatabase` inserts, as one batch appended to the
stored rows, exactly those tweets of the incoming batch whose external id
is not already stored for the target politician (membership computed from
the one batch lookup `existingTweetIdsOf`), and returns the number
actually inserted; the skipped remainder satisfies
batch size = inserted + skipped (skipped = the tweets whose id was
already stored, not an error); re-ingesting the same batch inserts
nothing and leaves the state unchanged, so repeated ingestion never
creates a second row for the same external id; and when the stored ids
for the politician and the batch ids are duplicate-free, they remain so
after the insert. -/
theorem tweet_batch_insert (db : DB) (tweetData : List TweetIn) (politicianId : Nat) :
    ((saveTweetsToDatabase db tweetData politicianId).2 =
      (tweetData.filter
        (fun t => !((existingTweetIdsOf db politicianId).contains t.id))).length) ∧
    (tweetData.length = (saveTweetsToDatabase db tweetData politicianId).2 +
      (tweetData.filter
        (fun t => (existingTweetIdsOf db politicianId).contains t.id)).length) ∧
    ((saveTweetsToDatabase db tweetData politicianId).1.tweets =
      db.tweets ++
        (tweetData.filter
          (fun t => !((existingTweetIdsOf db politicianId).contains t.id))).map
          (fun t => ⟨t.id, politicianId, t.text, t.created_at⟩)) ∧
    (saveTweetsToDatabase (saveTweetsToDatabase db tweetData politicianId).1 tweetData
        politicianId =
      ((saveTweetsToDatabase db tweetData politicianId).1, 0)) ∧
    ((existingTweetIdsOf db politicianId).Nodup → (tweetData.map TweetIn.id).Nodup →
      (existingTweetIdsOf (saveTweetsToDatabase db tweetData politicianId).1
        politicianId).Nodup) := by
  have hcontains : ∀ t ∈ tweetData,
      (existingTweetIdsOf (saveTweetsToDatabase db tweetData politicianId).1
        politicianId).contains t.id = true := by
    intro t ht
    rw [existingTweetIdsOf_after]
    refine List.elem_iff.mpr ?_
    by_cases hc : (existingTweetIdsOf db politicianId).contains t.id
    · exact List.mem_append_left _ (List.elem_iff.mp hc)
    · refine List.mem_append_right _ ?_
      refine List.mem_map_of_mem TweetIn.id ?_
      refine List.mem_filter.mpr ⟨ht, ?_⟩
      simp only [Bool.not_eq_true] at hc
      rw [hc]
      rfl
  refine ⟨by rw [saveTweetsToDatabase_spec], ?_, by rw [saveTweetsToDatabase_spec], ?_, ?_⟩
  · rw [saveTweetsToDatabase_spec]
    dsimp only
    rw [Nat.add_comm]
    exact length_filter_split tweetData (fun t => (existingTweetIdsOf db politicianId).contains t.id)
  · have hnil : tweetData.filter
        (fun t => !((existingTweetIdsOf
          (saveTweetsToDatabase db tweetData politicianId).1 politicianId).contains t.id)) =
        [] := by
      refine List.filter_eq_nil_iff.mpr ?_
      intro t ht
      rw [hcontains t ht]
      simp
    rw [saveTweetsToDatabase_spec ((saveTweetsToDatabase db tweetData politicianId).1), hnil]
    simp
  · intro hdb hbatch
    rw [existingTweetIdsOf_after]
    refine hdb.append ?_ ?_
    · refine hbatch.sublist ?_
      exact (List.filter_sublist tweetData).map TweetIn.id
    · intro a ha hmem
      obtain ⟨t, htf, hid⟩ := List.mem_map.mp hmem
      obtain ⟨-, hpred⟩ := List.mem_filter.mp htf
      rw [hid] at hpred
      have : (existingTweetIdsOf db politicianId).contains a = true := List.elem_iff.mpr ha
      rw [this] at hpred
      exact absurd hpred (by simp)

/-- Witness for C9 at a concrete run: politician 1 already stores tweet
"t1"; ingesting the batch ["t1", "t2"] inserts exactly "t2" (count 1,
skipped 1), and re-ingesting the same batch inserts nothing. -/
theorem tweet_batch_insert_witness :
    ((saveTweetsToDatabase ⟨[], [], [], [⟨"t1", 1, "old", "2024"⟩], 1, 1, 0⟩
        [⟨"t1", "hello", "2024"⟩, ⟨"t2", "world", "2024"⟩] 1).2 = 1) ∧
    ((saveTweetsToDatabase ⟨[], [], [], [⟨"t1", 1, "old", "2024"⟩], 1, 1, 0⟩
        [⟨"t1", "hello", "2024"⟩, ⟨"t2", "world", "2024"⟩] 1).1.tweets =
      [⟨"t1", 1, "old", "2024"⟩, ⟨"t2", 1, "world", "2024"⟩]) ∧
    (saveTweetsToDatabase
        (saveTweetsToDatabase ⟨[], [], [], [⟨"t1", 1, "old", "2024"⟩], 1, 1, 0⟩
          [⟨"t1", "hello", "2024"⟩, ⟨"t2", "world", "2024"⟩] 1).1
        [⟨"t1", "hello", "2024"⟩, ⟨"t2", "world", "2024"⟩] 1).2 = 0 ∧
    (existingTweetIdsOf
        (saveTweetsToDatabase ⟨[], [], [], [⟨"t1", 1, "old", "2024"⟩], 1, 1, 0⟩
          [⟨"t1", "hello", "2024"⟩, ⟨"t2", "world", "2024"⟩] 1).1 1).Nodup := by
  have h := tweet_batch_insert ⟨[], [], [], [⟨"t1", 1, "old", "2024"⟩], 1, 1, 0⟩
    [⟨"t1", "hello", "2024"⟩, ⟨"t2", "world", "2024"⟩] 1
  refine ⟨by decide, by decide, ?_, h.2.2.2.2 (by decide) (by decide)⟩
  rw [h.2.2.2.1]

/-! ## Handle fix-up theorems (C8) -/

/-- The result record returned by the fix-up (identical on the
updates-empty and updates-applied paths). -/
theorem checkAndFix_results (db : DB) :
    (checkAndFixTwitterHandles db).2 =
      ⟨(fixRowsOf db).length, (handleUpdatesOf (fixRowsOf db)).length, 0,
       fixDetailsOf (fixRowsOf db)⟩ := by
  unfold checkAndFixTwitterHandles checkAndFixRun
  by_cases h : (handleUpdatesOf (fixRowsOf db)).isEmpty
  · rw [if_pos h]
  · rw [if_neg h]
    rfl

/-- When every cleaned handle is non-empty, the queued updates are
exactly the rows whose clean-up fired. -/
theorem handleUpdatesOf_length (rows : List PoliticianRow)
    (hne : ∀ p ∈ rows, (cleanTwitterHandle (p.twitter_handle.getD "")).1 ≠ "") :
    (handleUpdatesOf rows).length =
      (rows.filter (fun p => (cleanTwitterHandle (p.twitter_handle.getD "")).2)).length := by
  induction rows with
  | nil => rfl
  | cons hd tl ih =>
    have hhd := hne hd (List.mem_cons_self hd tl)
    have htl : ∀ p ∈ tl, (cleanTwitterHandle (p.twitter_handle.getD "")).1 ≠ "" :=
      fun p hp => hne p (List.mem_cons_of_mem hd hp)
    by_cases hc : (cleanTwitterHandle (hd.twitter_handle.getD "")).2
    · have : (handleUpdatesOf (hd :: tl)) =
          ⟨hd.id, (cleanTwitterHandle (hd.twitter_handle.getD "")).1,
            hd.twitter_handle.getD ""⟩ :: handleUpdatesOf tl := by
        unfold handleUpdatesOf
        rw [List.filterMap_cons]
        dsimp only
        rw [if_pos ⟨hc, hhd⟩]
      rw [this, List.filter_cons_of_pos (by exact hc), List.length_cons, List.length_cons,
        ih htl]
    · have : (handleUpdatesOf (hd :: tl)) = handleUpdatesOf tl := by
        unfold handleUpdatesOf
        rw [List.filterMap_cons]
        dsimp only
        rw [if_neg (fun hand => hc hand.1)]
      rw [this, List.filter_cons_of_neg (by simpa using hc), ih htl]

/-- The status stored in a detail row compares to "ok" as the negation of
the `fixed` flag. -/
theorem fixDetail_status_ok (b : Bool) :
    ((if b then "fixed" else "ok" : String) == "ok") = !b := by
  cases b <;> rfl

/-- C8: the handle fix-up strips a twitter.com or x.com URL prefix, a
leading "@", trailing path/query fragments and surrounding whitespace —
in particular "https://x.com/JohnDoe/status/123?x=1" cleans to "JohnDoe"
(flagged changed) while "janedoe" is left as-is (not flagged); every
queued fix appears in the report with its {id, original, fixed} and
status "fixed" (the report rows also carry the politician name, one row
per scanned politician); when every cleaned handle is non-empty the rows
reported "ok" number total − fixed; and on the two-politician example the
batch update rewrites the stored handle to "JohnDoe", leaves "janedoe"
unchanged, and the result reports total 2, fixed 1 with the two expected
detail rows. -/
theorem handle_fixup (db : DB) :
    (cleanTwitterHandle "https://x.com/JohnDoe/status/123?x=1" = ("JohnDoe", true)) ∧
    (cleanTwitterHandle "janedoe" = ("janedoe", false)) ∧
    (∀ u ∈ handleUpdatesOf (fixRowsOf db),
      ∃ d ∈ (checkAndFixTwitterHandles db).2.details,
        d.id = u.id ∧ d.original = u.original ∧ d.fixed = some u.handle ∧
        d.status = "fixed") ∧
    ((checkAndFixTwitterHandles db).2.details.length =
      (checkAndFixTwitterHandles db).2.total) ∧
    ((∀ p ∈ fixRowsOf db, (cleanTwitterHandle (p.twitter_handle.getD "")).1 ≠ "") →
      ((checkAndFixTwitterHandles db).2.details.filter
          (fun d => d.status == "ok")).length =
        (checkAndFixTwitterHandles db).2.total - (checkAndFixTwitterHandles db).2.fixed) ∧
    ((checkAndFixTwitterHandles
        ⟨[], [⟨1, "John", "P", some "https://x.com/JohnDoe/status/123?x=1", 0⟩,
              ⟨2, "Jane", "Q", some "janedoe", 0⟩], [], [], 3, 1, 0⟩).1.politicians =
      [⟨1, "John", "P", some "JohnDoe", 0⟩, ⟨2, "Jane", "Q", some "janedoe", 0⟩]) ∧
    ((checkAndFixTwitterHandles
        ⟨[], [⟨1, "John", "P", some "https://x.com/JohnDoe/status/123?x=1", 0⟩,
              ⟨2, "Jane", "Q", some "janedoe", 0⟩], [], [], 3, 1, 0⟩).2 =
      ⟨2, 1, 0,
       [⟨1, "John", "https://x.com/JohnDoe/status/123?x=1", some "JohnDoe", "fixed"⟩,
        ⟨2, "Jane", "janedoe", none, "ok"⟩]⟩) := by
  refine ⟨by decide, by decide, ?_, ?_, ?_, by decide, by decide⟩
  · intro u hu
    obtain ⟨p, hp, hf⟩ := List.mem_filterMap.mp hu
    dsimp only at hf
    by_cases hcond : (cleanTwitterHandle (p.twitter_handle.getD "")).2 = true ∧
        (cleanTwitterHandle (p.twitter_handle.getD "")).1 ≠ ""
    · rw [if_pos hcond] at hf
      have hu' := Option.some.inj hf
      rw [checkAndFix_results]
      refine ⟨⟨p.id, p.name, p.twitter_handle.getD "",
          if (cleanTwitterHandle (p.twitter_handle.getD "")).2 then
            some (cleanTwitterHandle (p.twitter_handle.getD "")).1 else none,
          if (cleanTwitterHandle (p.twitter_handle.getD "")).2 then "fixed" else "ok"⟩,
        List.mem_map_of_mem _ hp, ?_⟩
      rw [← hu']
      refine ⟨rfl, rfl, ?_, ?_⟩
      · dsimp only
        rw [if_pos hcond.1]
      · dsimp only
        rw [if_pos hcond.1]
    · rw [if_neg hcond] at hf
      exact absurd hf (by simp)
  · rw [checkAndFix_results]
    exact List.length_map _ _
  · intro hne
    rw [checkAndFix_results]
    dsimp only
    have hdet : (fixDetailsOf (fixRowsOf db)).filter (fun d => d.status == "ok") =
        ((fixRowsOf db).filter
          (fun p => !(cleanTwitterHandle (p.twitter_handle.getD "")).2)).map
          (fun p =>
            ⟨p.id, p.name, p.twitter_handle.getD "",
             if (cleanTwitterHandle (p.twitter_handle.getD "")).2 then
               some (cleanTwitterHandle (p.twitter_handle.getD "")).1 else none,
             if (cleanTwitterHandle (p.twitter_handle.getD "")).2 then "fixed" else "ok"⟩) := by
      unfold fixDetailsOf
      rw [List.filter_map]
      congr 1
      apply List.filter_congr
      intro p _
      exact fixDetail_status_ok (cleanTwitterHandle (p.twitter_handle.getD "")).2
    rw [hdet, List.length_map, handleUpdatesOf_length (fixRowsOf db) hne]
    have := length_filter_split (fixRowsOf db)
      (fun p => (cleanTwitterHandle (p.twitter_handle.getD "")).2)
    omega

/-- Witness for C8: the general report clauses instantiated on the
two-politician example — the queued "JohnDoe" fix is reported as changed,
the report has one row per scanned politician, and the "ok" rows number
total − fixed. -/
theorem handle_fixup_witness :
    (∃ d ∈ (checkAndFixTwitterHandles
        ⟨[], [⟨1, "John", "P", some "https://x.com/JohnDoe/status/123?x=1", 0⟩,
              ⟨2, "Jane", "Q", some "janedoe", 0⟩], [], [], 3, 1, 0⟩).2.details,
      d.id = 1 ∧ d.original = "https://x.com/JohnDoe/status/123?x=1" ∧
      d.fixed = some "JohnDoe" ∧ d.status = "fixed") ∧
    ((checkAndFixTwitterHandles
        ⟨[], [⟨1, "John", "P", some "https://x.com/JohnDoe/status/123?x=1", 0⟩,
              ⟨2, "Jane", "Q", some "janedoe", 0⟩], [], [], 3, 1, 0⟩).2.details.filter
        (fun d => d.status == "ok")).length =
      (checkAndFixTwitterHandles
        ⟨[], [⟨1, "John", "P", some "https://x.com/JohnDoe/status/123?x=1", 0⟩,
              ⟨2, "Jane", "Q", some "janedoe", 0⟩], [], [], 3, 1, 0⟩).2.total -
      (checkAndFixTwitterHandles
        ⟨[], [⟨1, "John", "P", some "https://x.com/JohnDoe/status/123?x=1", 0⟩,
              ⟨2, "Jane", "Q", some "janedoe", 0⟩], [], [], 3, 1, 0⟩).2.fixed := by
  have h := handle_fixup
    ⟨[], [⟨1, "John", "P", some "https://x.com/JohnDoe/status/123?x=1", 0⟩,
          ⟨2, "Jane", "Q", some "janedoe", 0⟩], [], [], 3, 1, 0⟩
  exact ⟨h.2.2.1 ⟨1, "JohnDoe", "https://x.com/JohnDoe/status/123?x=1"⟩ (by decide),
    h.2.2.2.2.1 (by decide)⟩

/-! ## Vote uniqueness invariant (C2) -/

/-- At most one Vote row per (politician, session) pair: the stored pairs
are duplicate-free. -/
def VotePairUnique (db : DB) : Prop :=
  (db.votes.map (fun v => (v.politician_id, v.session_id))).Nodup

/-- Well-formedness of the relational state: serial ids are
duplicate-free and below their counters, session ids are unique, and the
(politician, session) vote pairs are unique. -/
def DBInv (db : DB) : Prop :=
  (db.votes.map VoteRow.id).Nodup ∧
  (∀ v ∈ db.votes, v.id < db.nextVoteId) ∧
  VotePairUnique db ∧
  (db.politicians.map PoliticianRow.id).Nodup ∧
  (∀ p ∈ db.politicians, p.id < db.nextPoliticianId) ∧
  (db.sessions.map SessionRow.id).Nodup

instance (db : DB) : Decidable (VotePairUnique db) := by
  unfold VotePairUnique
  infer_instance

instance (db : DB) : Decidable (DBInv db) := by
  unfold DBInv
  infer_instance

theorem nodup_append_singleton {α : Type} {l : List α} {a : α} (h : l.Nodup)
    (ha : a ∉ l) : (l ++ [a]).Nodup :=
  h.append (List.nodup_singleton a)
    (fun x hx hxa => absurd hx (by rw [List.mem_singleton.mp hxa]; exact ha))

/-- The in-place vote update keeps every row's id. -/
theorem votes_update_id_map (l : List VoteRow) (targetId : Nat) (vote : String) :
    (l.map (fun v => if v.id = targetId then { v with vote := vote } else v)).map
      VoteRow.id = l.map VoteRow.id := by
  rw [List.map_map]
  apply List.map_congr_left
  intro v _
  by_cases h : v.id = targetId <;> simp [Function.comp, h]

/-- The in-place vote update keeps every row's (politician, session)
pair. -/
theorem votes_update_pair_map (l : List VoteRow) (targetId : Nat) (vote : String) :
    (l.map (fun v => if v.id = targetId then { v with vote := vote } else v)).map
      (fun v => (v.politician_id, v.session_id)) =
      l.map (fun v => (v.politician_id, v.session_id)) := by
  rw [List.map_map]
  apply List.map_congr_left
  intro v _
  by_cases h : v.id = targetId <;> simp [Function.comp, h]

/-- The in-place party update keeps every politician's id. -/
theorem politicians_update_id_map (l : List PoliticianRow) (targetId : Nat) (party : String) :
    (l.map (fun q => if q.id = targetId then { q with party := party } else q)).map
      PoliticianRow.id = l.map PoliticianRow.id := by
  rw [List.map_map]
  apply List.map_congr_left
  intro q _
  by_cases h : q.id = targetId <;> simp [Function.comp, h]

/-- The vote_count increment keeps every session's id. -/
theorem sessions_inc_id_map (l : List SessionRow) (sessionId : Nat) :
    (l.map (fun s => if s.id = sessionId then { s with vote_count := s.vote_count + 1 }
        else s)).map SessionRow.id = l.map SessionRow.id := by
  rw [List.map_map]
  apply List.map_congr_left
  intro s _
  by_cases h : s.id = sessionId <;> simp [Function.comp, h]

/-- The vote_count increment adds exactly the number of matching rows to
the summed count of the target session. -/
theorem svc_inc (l : List SessionRow) (sessionId : Nat) :
    (((l.map (fun s => if s.id = sessionId then { s with vote_count := s.vote_count + 1 }
        else s)).filter (fun s => s.id == sessionId)).map
        (fun s => s.vote_count)).sum =
      ((l.filter (fun s => s.id == sessionId)).map (fun s => s.vote_count)).sum +
        (l.filter (fun s => s.id == sessionId)).length := by
  induction l with
  | nil => rfl
  | cons hd tl ih =>
    rw [List.map_cons]
    by_cases h : hd.id = sessionId
    · rw [if_pos h,
        List.filter_cons_of_pos (by simpa using h),
        List.filter_cons_of_pos (by simpa using h),
        List.map_cons, List.map_cons, List.sum_cons, List.sum_cons, List.length_cons]
      dsimp only
      omega
    · rw [if_neg h,
        List.filter_cons_of_neg (by simpa using h),
        List.filter_cons_of_neg (by simpa using h)]
      exact ih

/-- The vote_count increment leaves every other session's summed count
unchanged. -/
theorem svc_other (l : List SessionRow) (sessionId other : Nat) (hne : other ≠ sessionId) :
    (((l.map (fun s => if s.id = sessionId then { s with vote_count := s.vote_count + 1 }
        else s)).filter (fun s => s.id == other)).map (fun s => s.vote_count)).sum =
      ((l.filter (fun s => s.id == other)).map (fun s => s.vote_count)).sum := by
  induction l with
  | nil => rfl
  | cons hd tl ih =>
    rw [List.map_cons]
    by_cases h : hd.id = sessionId
    · have hno : ¬ hd.id = other := by rw [h]; exact fun hh => hne hh.symm
      rw [if_pos h,
        List.filter_cons_of_neg (by simpa using hno),
        List.filter_cons_of_neg (by simpa using hno)]
      exact ih
    · rw [if_neg h]
      by_cases ho : hd.id = other
      · rw [List.filter_cons_of_pos (by simpa using ho),
          List.filter_cons_of_pos (by simpa using ho),
          List.map_cons, List.map_cons, List.sum_cons, List.sum_cons, ih]
      · rw [List.filter_cons_of_neg (by simpa using ho),
          List.filter_cons_of_neg (by simpa using ho)]
        exact ih

/-- The politician step preserves the state invariant. -/
theorem politicianUpsert_inv (db : DB) (politicianName party : String) (hinv : DBInv db) :
    DBInv (politicianUpsert db politicianName party).1 := by
  obtain ⟨hvid, hvlt, hpair, hpid, hplt, hsid⟩ := hinv
  unfold politicianUpsert
  cases findPolitician db politicianName with
  | none =>
    refine ⟨hvid, hvlt, hpair, ?_, ?_, hsid⟩
    · dsimp only
      rw [List.map_append]
      exact nodup_append_singleton hpid
        (fun hmem => by
          obtain ⟨p, hp, hid⟩ := List.mem_map.mp hmem
          have hid' : p.id = db.nextPoliticianId := hid
          exact absurd hid' (Nat.ne_of_lt (hplt p hp)))
    · intro p hp
      rcases List.mem_append.mp hp with hl | hr
      · exact Nat.lt_succ_of_lt (hplt p hl)
      · rw [List.mem_singleton.mp hr]
        exact Nat.lt_succ_self _
  | some q =>
    refine ⟨hvid, hvlt, hpair, ?_, ?_, hsid⟩
    · dsimp only
      rw [politicians_update_id_map]
      exact hpid
    · intro p hp
      obtain ⟨p0, hp0, hupd⟩ := List.mem_map.mp hp
      have : p.id = p0.id := by
        rw [← hupd]
        by_cases h : p0.id = q.id <;> simp [h]
      rw [this]
      exact hplt p0 hp0

/-- The vote step preserves the state invariant. -/
theorem voteUpsert_inv (incFails : Bool) (db1 : DB) (sessionId politicianId : Nat)
    (vote : String) (hinv : DBInv db1) :
    DBInv (voteUpsert incFails db1 sessionId politicianId vote).1 := by
  obtain ⟨hvid, hvlt, hpair, hpid, hplt, hsid⟩ := hinv
  cases hfind : db1.votes.find?
      (fun v => v.session_id == sessionId && v.politician_id == politicianId) with
  | some existingVote =>
    rw [voteUpsert_update hfind incFails vote]
    refine ⟨?_, ?_, ?_, hpid, hplt, hsid⟩
    · dsimp only
      rw [votes_update_id_map]
      exact hvid
    · intro v hv
      obtain ⟨v0, hv0, hupd⟩ := List.mem_map.mp hv
      have : v.id = v0.id := by
        rw [← hupd]
        by_cases h : v0.id = existingVote.id <;> simp [h]
      rw [this]
      exact hvlt v0 hv0
    · unfold VotePairUnique
      dsimp only
      rw [votes_update_pair_map]
      exact hpair
  | none =>
    have habs : ∀ v ∈ db1.votes,
        ¬(v.session_id == sessionId && v.politician_id == politicianId) = true := by
      intro v hv
      exact List.find?_eq_none.mp hfind v hv
    cases incFails with
    | true =>
      rw [voteUpsert_insert_fail hfind vote]
      refine ⟨?_, ?_, ?_, hpid, hplt, hsid⟩
      · dsimp only
        rw [List.map_append]
        exact nodup_append_singleton hvid
          (fun hmem => by
            obtain ⟨v, hv, hid⟩ := List.mem_map.mp hmem
            have hid' : v.id = db1.nextVoteId := hid
            exact absurd hid' (Nat.ne_of_lt (hvlt v hv)))
      · intro v hv
        rcases List.mem_append.mp hv with hl | hr
        · exact Nat.lt_succ_of_lt (hvlt v hl)
        · rw [List.mem_singleton.mp hr]
          exact Nat.lt_succ_self _
      · unfold VotePairUnique
        dsimp only
        rw [List.map_append]
        refine nodup_append_singleton hpair (fun hmem => ?_)
        obtain ⟨v, hv, hpr⟩ := List.mem_map.mp hmem
        have h1 : v.politician_id = politicianId := congrArg Prod.fst hpr
        have h2 : v.session_id = sessionId := congrArg Prod.snd hpr
        exact habs v hv (by rw [h1, h2]; simp)
    | false =>
      rw [voteUpsert_insert hfind vote]
      refine ⟨?_, ?_, ?_, hpid, hplt, ?_⟩
      · dsimp only
        rw [List.map_append]
        exact nodup_append_singleton hvid
          (fun hmem => by
            obtain ⟨v, hv, hid⟩ := List.mem_map.mp hmem
            have hid' : v.id = db1.nextVoteId := hid
            exact absurd hid' (Nat.ne_of_lt (hvlt v hv)))
      · intro v hv
        rcases List.mem_append.mp hv with hl | hr
        · exact Nat.lt_succ_of_lt (hvlt v hl)
        · rw [List.mem_singleton.mp hr]
          exact Nat.lt_succ_self _
      · unfold VotePairUnique
        dsimp only
        rw [List.map_append]
        refine nodup_append_singleton hpair (fun hmem => ?_)
        obtain ⟨v, hv, hpr⟩ := List.mem_map.mp hmem
        have h1 : v.politician_id = politicianId := congrArg Prod.fst hpr
        have h2 : v.session_id = sessionId := congrArg Prod.snd hpr
        exact habs v hv (by rw [h1, h2]; simp)
      · dsimp only
        rw [sessions_inc_id_map]
        exact hsid

/-- `saveVote` preserves the state invariant. -/
theorem saveVote_inv (db : DB) (sessionId : Nat) (politicianName party vote : String)
    (hinv : DBInv db) : DBInv (saveVote db sessionId politicianName party vote) :=
  voteUpsert_inv false (politicianUpsert db politicianName party).1 sessionId
    (politicianUpsert db politicianName party).2 vote
    (politicianUpsert_inv db politicianName party hinv)

/-- C2: for every `saveVote` call on a well-formed state — if no Vote row
exists for the (resolved politician, session) pair, exactly one new row
with the given vote value is inserted and the parent session's vote_count
(unique row assumed present) is incremented by exactly 1, other sessions'
counts being untouched; if such a row exists, its vote value is updated
in place (the updated row is stored, every other row is kept verbatim, no
new row is created) and the sessions table is unchanged; and the state
invariant — in particular at most one Vote row per (politician, session)
pair — is preserved, so it holds at every reachable state. -/
theorem vote_upsert_semantics (db : DB) (sessionId : Nat)
    (politicianName party vote : String) (hinv : DBInv db) :
    (db.votes.find? (fun v => v.session_id == sessionId &&
        v.politician_id == resolvedPid db politicianName) = none →
      (saveVote db sessionId politicianName party vote).votes.length = db.votes.length + 1 ∧
      (∃ v ∈ (saveVote db sessionId politicianName party vote).votes,
        v.politician_id = resolvedPid db politicianName ∧ v.session_id = sessionId ∧
        v.vote = vote) ∧
      ((db.sessions.filter (fun s => s.id == sessionId)).length = 1 →
        sessionVoteCount (saveVote db sessionId politicianName party vote) sessionId =
          sessionVoteCount db sessionId + 1) ∧
      (∀ other, other ≠ sessionId →
        sessionVoteCount (saveVote db sessionId politicianName party vote) other =
          sessionVoteCount db other)) ∧
    (∀ existingVote, db.votes.find? (fun v => v.session_id == sessionId &&
        v.politician_id == resolvedPid db politicianName) = some existingVote →
      (saveVote db sessionId politicianName party vote).votes.length = db.votes.length ∧
      (saveVote db sessionId politicianName party vote).sessions = db.sessions ∧
      ({ existingVote with vote := vote } ∈
        (saveVote db sessionId politicianName party vote).votes) ∧
      (∀ v ∈ db.votes, v.id ≠ existingVote.id →
        v ∈ (saveVote db sessionId politicianName party vote).votes)) ∧
    DBInv (saveVote db sessionId politicianName party vote) ∧
    VotePairUnique (saveVote db sessionId politicianName party vote) := by
  have hpuv := politicianUpsert_votes db politicianName party
  have hpus := politicianUpsert_sessions db politicianName party
  have hpid := politicianUpsert_pid db politicianName party
  have hinv' := saveVote_inv db sessionId politicianName party vote hinv
  refine ⟨?_, ?_, hinv', hinv'.2.2.1⟩
  · intro hnone
    have hfind : (politicianUpsert db politicianName party).1.votes.find?
        (fun v => v.session_id == sessionId &&
          v.politician_id == (politicianUpsert db politicianName party).2) = none := by
      rw [hpuv, hpid]
      exact hnone
    have hrun : saveVote db sessionId politicianName party vote =
        { (politicianUpsert db politicianName party).1 with
            votes := (politicianUpsert db politicianName party).1.votes ++
              [⟨(politicianUpsert db politicianName party).1.nextVoteId, sessionId,
                (politicianUpsert db politicianName party).2, vote,
                (politicianUpsert db politicianName party).1.clock⟩],
            nextVoteId := (politicianUpsert db politicianName party).1.nextVoteId + 1,
            clock := (politicianUpsert db politicianName party).1.clock + 1,
            sessions := (politicianUpsert db politicianName party).1.sessions.map
              (fun s => if s.id = sessionId then { s with vote_count := s.vote_count + 1 }
                else s) } := by
      show (voteUpsert false (politicianUpsert db politicianName party).1 sessionId
          (politicianUpsert db politicianName party).2 vote).1 = _
      rw [voteUpsert_insert hfind vote]
    rw [hrun]
    refine ⟨?_, ?_, ?_, ?_⟩
    · dsimp only
      rw [List.length_append, hpuv]
      rfl
    · refine ⟨⟨(politicianUpsert db politicianName party).1.nextVoteId, sessionId,
        (politicianUpsert db politicianName party).2, vote,
        (politicianUpsert db politicianName party).1.clock⟩, ?_, hpid, rfl, rfl⟩
      dsimp only
      exact List.mem_append_right _ (List.mem_singleton_self _)
    · intro hone
      unfold sessionVoteCount
      dsimp only
      rw [hpus, svc_inc db.sessions sessionId, hone]
    · intro other hne
      unfold sessionVoteCount
      dsimp only
      rw [hpus, svc_other db.sessions sessionId other hne]
  · intro existingVote hsome
    have hfind : (politicianUpsert db politicianName party).1.votes.find?
        (fun v => v.session_id == sessionId &&
          v.politician_id == (politicianUpsert db politicianName party).2) =
        some existingVote := by
      rw [hpuv, hpid]
      exact hsome
    have hrun : saveVote db sessionId politicianName party vote =
        { (politicianUpsert db politicianName party).1 with
            votes := (politicianUpsert db politicianName party).1.votes.map
              (fun v => if v.id = existingVote.id then { v with vote := vote } else v) } := by
      show (voteUpsert false (politicianUpsert db politicianName party).1 sessionId
          (politicianUpsert db politicianName party).2 vote).1 = _
      rw [voteUpsert_update hfind false vote]
    have hevmem : existingVote ∈ db.votes := List.mem_of_find?_eq_some hsome
    rw [hrun]
    refine ⟨?_, ?_, ?_, ?_⟩
    · dsimp only
      rw [List.length_map, hpuv]
    · exact hpus
    · dsimp only
      rw [hpuv]
      exact List.mem_map.mpr ⟨existingVote, hevmem, by simp⟩
    · intro v hv hne
      dsimp only
      rw [hpuv]
      exact List.mem_map.mpr ⟨v, hv, by simp [hne]⟩

/-- Witness for C2 at concrete states: inserting a vote for the new
politician "Bob" in session 1 adds exactly one row and bumps the
session's count from 0 to 1; re-saving a vote for "Alice", whose (1, 1)
pair is already stored, keeps one row, leaves sessions untouched, and
preserves the invariant. -/
theorem vote_upsert_semantics_witness :
    ((saveVote ⟨[⟨1, "1", "T", "2024", 0, 0⟩], [⟨1, "Alice", "P", none, 0⟩],
        [], [], 2, 2, 5⟩ 1 "Bob" "Q" "no").votes.length = 1) ∧
    (sessionVoteCount (saveVote ⟨[⟨1, "1", "T", "2024", 0, 0⟩], [⟨1, "Alice", "P", none, 0⟩],
        [], [], 2, 2, 5⟩ 1 "Bob" "Q" "no") 1 = 1) ∧
    ((saveVote ⟨[⟨1, "1", "T", "2024", 0, 1⟩], [⟨1, "Alice", "P", none, 0⟩],
        [⟨1, 1, 1, "yes", 0⟩], [], 2, 2, 5⟩ 1 "Alice" "P" "no").votes.length = 1) ∧
    ((saveVote ⟨[⟨1, "1", "T", "2024", 0, 1⟩], [⟨1, "Alice", "P", none, 0⟩],
        [⟨1, 1, 1, "yes", 0⟩], [], 2, 2, 5⟩ 1 "Alice" "P" "no").sessions =
      [⟨1, "1", "T", "2024", 0, 1⟩]) ∧
    VotePairUnique (saveVote ⟨[⟨1, "1", "T", "2024", 0, 1⟩], [⟨1, "Alice", "P", none, 0⟩],
        [⟨1, 1, 1, "yes", 0⟩], [], 2, 2, 5⟩ 1 "Alice" "P" "no") := by
  have h1 := (vote_upsert_semantics ⟨[⟨1, "1", "T", "2024", 0, 0⟩],
    [⟨1, "Alice", "P", none, 0⟩], [], [], 2, 2, 5⟩ 1 "Bob" "Q" "no"
    (by decide)).1 (by decide)
  have h2 := vote_upsert_semantics ⟨[⟨1, "1", "T", "2024", 0, 1⟩],
    [⟨1, "Alice", "P", none, 0⟩], [⟨1, 1, 1, "yes", 0⟩], [], 2, 2, 5⟩ 1 "Alice" "P" "no"
    (by decide)
  have h2u := h2.2.1 ⟨1, 1, 1, "yes", 0⟩ (by decide)
  exact ⟨h1.1, by rw [h1.2.2.1 (by decide)]; decide, h2u.1, h2u.2.1, h2.2.2.2⟩

/-! ## Ingestion batches (C3) -/

/-- One call of an ingestion batch: `saveVotingSession`, `saveVote` or
`saveTweetsToDatabase` with its inputs. -/
inductive IngestOp where
  | session (sessionId : String) (title date : String)
  | vote (sessionId : Nat) (politicianName party vote : String)
  | tweets (tweetData : List TweetIn) (politicianId : Nat)

/-- The database effect of one ingestion call. -/
def applyOp (db : DB) : IngestOp → DB
  | IngestOp.session sid title date => (saveVotingSession db sid title date).1
  | IngestOp.vote sess name party v => saveVote db sess name party v
  | IngestOp.tweets tweetData pid => (saveTweetsToDatabase db tweetData pid).1

/-- Applying a whole batch in order. -/
def applyBatch (db : DB) (batch : List IngestOp) : DB := batch.foldl applyOp db

/-- A call is settled in a state when re-running it cannot change the
state: its session exists, its tweets are stored, or its politician
carries its party and its (politician, session) vote row carries its
value. -/
def settledOp (db : DB) : IngestOp → Prop
  | IngestOp.session sid _ _ => sessionExists db ((toNatL sid.data).getD 0) = true
  | IngestOp.vote sess name party v =>
      ∃ p, findPolitician db name = some p ∧ p.party = party ∧
        ∃ vr, db.votes.find?
          (fun x => x.session_id == sess && x.politician_id == p.id) = some vr ∧
          vr.vote = v
  | IngestOp.tweets tweetData pid =>
      ∀ t ∈ tweetData, t.id ∈ existingTweetIdsOf db pid

/-! ### Frame lemmas -/

theorem saveVotingSession_frame (db : DB) (sid title date : String) :
    (saveVotingSession db sid title date).1.politicians = db.politicians ∧
    (saveVotingSession db sid title date).1.votes = db.votes ∧
    (saveVotingSession db sid title date).1.tweets = db.tweets ∧
    (saveVotingSession db sid title date).1.nextPoliticianId = db.nextPoliticianId ∧
    (saveVotingSession db sid title date).1.nextVoteId = db.nextVoteId := by
  unfold saveVotingSession
  dsimp only
  by_cases h : sessionExists db ((toNatL sid.data).getD 0)
  · rw [if_pos h]
    exact ⟨rfl, rfl, rfl, rfl, rfl⟩
  · rw [if_neg h]
    exact ⟨rfl, rfl, rfl, rfl, rfl⟩

theorem voteUpsert_frame (incFails : Bool) (db1 : DB) (sessionId politicianId : Nat)
    (vote : String) :
    (voteUpsert incFails db1 sessionId politicianId vote).1.tweets = db1.tweets ∧
    (voteUpsert incFails db1 sessionId politicianId vote).1.politicians = db1.politicians ∧
    (voteUpsert incFails db1 sessionId politicianId vote).1.nextPoliticianId =
      db1.nextPoliticianId := by
  unfold voteUpsert
  cases hfind : db1.votes.find?
      (fun v => v.session_id == sessionId && v.politician_id == politicianId) with
  | some existingVote => exact ⟨rfl, rfl, rfl⟩
  | none =>
    dsimp only
    cases incFails with
    | true => exact ⟨rfl, rfl, rfl⟩
    | false => exact ⟨rfl, rfl, rfl⟩

theorem saveVote_tweets (db : DB) (sessionId : Nat) (politicianName party vote : String) :
    (saveVote db sessionId politicianName party vote).tweets = db.tweets := by
  show (voteUpsert false (politicianUpsert db politicianName party).1 sessionId
      (politicianUpsert db politicianName party).2 vote).1.tweets = db.tweets
  rw [(voteUpsert_frame false (politicianUpsert db politicianName party).1 sessionId
      (politicianUpsert db politicianName party).2 vote).1]
  exact politicianUpsert_tweets db politicianName party

/-- Every ingestion call only ever appends to the tweets table. -/
theorem applyOp_tweets (db : DB) (op : IngestOp) :
    ∃ l, (applyOp db op).tweets = db.tweets ++ l := by
  cases op with
  | session sid title date =>
    refine ⟨[], ?_⟩
    show (saveVotingSession db sid title date).1.tweets = db.tweets ++ []
    rw [(saveVotingSession_frame db sid title date).2.2.1, List.append_nil]
  | vote sess name party v =>
    refine ⟨[], ?_⟩
    show (saveVote db sess name party v).tweets = db.tweets ++ []
    rw [saveVote_tweets, List.append_nil]
  | tweets tweetData pid =>
    refine ⟨(tweetData.filter
        (fun t => !((existingTweetIdsOf db pid).contains t.id))).map
        (fun t => ⟨t.id, pid, t.text, t.created_at⟩), ?_⟩
    show (saveTweetsToDatabase db tweetData pid).1.tweets = _
    rw [saveTweetsToDatabase_spec]

/-- Stored tweet ids for a politician are never removed by an ingestion
call. -/
theorem existingTweetIdsOf_mono (db : DB) (op : IngestOp) (pid : Nat) (x : String)
    (hx : x ∈ existingTweetIdsOf db pid) : x ∈ existingTweetIdsOf (applyOp db op) pid := by
  obtain ⟨l, hl⟩ := applyOp_tweets db op
  unfold existingTweetIdsOf at hx ⊢
  rw [hl, List.filter_append, List.map_append]
  exact List.mem_append_left _ hx

/-- A stored session is never removed by an ingestion call. -/
theorem sessionExists_mono (db : DB) (op : IngestOp) (sid : Nat)
    (h : sessionExists db sid = true) : sessionExists (applyOp db op) sid = true := by
  unfold sessionExists at h ⊢
  obtain ⟨s, hs, hsid⟩ := List.any_eq_true.mp h
  cases op with
  | session sid2 title date =>
    show ((saveVotingSession db sid2 title date).1.sessions.any _) = true
    unfold saveVotingSession
    dsimp only
    by_cases hex : sessionExists db ((toNatL sid2.data).getD 0)
    · rw [if_pos hex]
      exact h
    · rw [if_neg hex]
      dsimp only
      exact List.any_eq_true.mpr ⟨s, List.mem_append_left _ hs, hsid⟩
  | vote sess name party v =>
    show ((saveVote db sess name party v).sessions.any _) = true
    have hpus := politicianUpsert_sessions db name party
    show ((voteUpsert false (politicianUpsert db name party).1 sess
        (politicianUpsert db name party).2 v).1.sessions.any _) = true
    cases hfind : (politicianUpsert db name party).1.votes.find?
        (fun x => x.session_id == sess &&
          x.politician_id == (politicianUpsert db name party).2) with
    | some existingVote =>
      rw [voteUpsert_update hfind false v]
      dsimp only
      rw [hpus]
      exact h
    | none =>
      rw [voteUpsert_insert hfind v]
      dsimp only
      rw [hpus]
      refine List.any_eq_true.mpr ⟨if s.id = sess then { s with vote_count := s.vote_count + 1 }
        else s, List.mem_map_of_mem _ hs, ?_⟩
      by_cases hcase : s.id = sess
      · rw [if_pos hcase]
        exact hsid
      · rw [if_neg hcase]
        exact hsid
  | tweets tweetData pid =>
    show ((saveTweetsToDatabase db tweetData pid).1.sessions.any _) = true
    rw [saveTweetsToDatabase_spec]
    exact h

/-- Every ingestion call preserves the state invariant. -/
theorem applyOp_inv (db : DB) (op : IngestOp) (hinv : DBInv db) : DBInv (applyOp db op) := by
  cases op with
  | session sid title date =>
    obtain ⟨hvid, hvlt, hpair, hpid, hplt, hsid⟩ := hinv
    show DBInv (saveVotingSession db sid title date).1
    unfold saveVotingSession
    dsimp only
    by_cases hex : sessionExists db ((toNatL sid.data).getD 0)
    · rw [if_pos hex]
      exact ⟨hvid, hvlt, hpair, hpid, hplt, hsid⟩
    · rw [if_neg hex]
      refine ⟨hvid, hvlt, hpair, hpid, hplt, ?_⟩
      dsimp only
      rw [List.map_append]
      refine nodup_append_singleton hsid (fun hmem => ?_)
      obtain ⟨s, hs, hid⟩ := List.mem_map.mp hmem
      have : sessionExists db ((toNatL sid.data).getD 0) = true := by
        unfold sessionExists
        refine List.any_eq_true.mpr ⟨s, hs, ?_⟩
        have hid' : s.id = (toNatL sid.data).getD 0 := hid
        simpa using hid'
      exact hex this
  | vote sess name party v => exact saveVote_inv db sess name party v hinv
  | tweets tweetData pid =>
    show DBInv (saveTweetsToDatabase db tweetData pid).1
    rw [saveTweetsToDatabase_spec]
    exact hinv

/-! ### Settled calls are no-ops -/

theorem map_id_of_mem {α : Type} {l : List α} {f : α → α} (h : ∀ a ∈ l, f a = a) :
    l.map f = l := by
  have := List.map_congr_left (g := id) h
  simpa using this

theorem findPolitician_mem {db : DB} {name : String} {p : PoliticianRow}
    (h : findPolitician db name = some p) : p ∈ db.politicians :=
  List.mem_of_find?_eq_some h

theorem findPolitician_name {db : DB} {name : String} {p : PoliticianRow}
    (h : findPolitician db name = some p) : jsToLower p.name = jsToLower name := by
  have := List.find?_some h
  simpa using this

/-- Re-running the politician step when the politician already carries
the supplied party changes nothing. -/
theorem politicianUpsert_noop (db : DB) (name party : String) {p : PoliticianRow}
    (hfind : findPolitician db name = some p) (hparty : p.party = party)
    (hinv : DBInv db) :
    politicianUpsert db name party = (db, p.id) := by
  unfold politicianUpsert
  rw [hfind]
  have hmapid : db.politicians.map
      (fun q => if q.id = p.id then { q with party := party } else q) = db.politicians := by
    apply map_id_of_mem
    intro q hq
    by_cases hid : q.id = p.id
    · rw [if_pos hid]
      have hqp : q = p := List.inj_on_of_nodup_map hinv.2.2.2.1 hq
        (findPolitician_mem hfind) hid
      rw [hqp, ← hparty]
    · rw [if_neg hid]
  dsimp only
  rw [hmapid]

/-- Re-running the vote step when the pair's row already carries the
supplied value changes nothing. -/
theorem voteUpsert_noop (db1 : DB) (sess pid : Nat) (v : String) {vr : VoteRow}
    (hfind : db1.votes.find? (fun x => x.session_id == sess && x.politician_id == pid) =
      some vr) (hvote : vr.vote = v) (hinv : DBInv db1) :
    (voteUpsert false db1 sess pid v).1 = db1 := by
  rw [voteUpsert_update hfind false v]
  have hmapid : db1.votes.map
      (fun x => if x.id = vr.id then { x with vote := v } else x) = db1.votes := by
    apply map_id_of_mem
    intro x hx
    by_cases hid : x.id = vr.id
    · rw [if_pos hid]
      have hxv : x = vr := List.inj_on_of_nodup_map hinv.1 hx
        (List.mem_of_find?_eq_some hfind) hid
      rw [hxv, ← hvote]
    · rw [if_neg hid]
  dsimp only
  rw [hmapid]

/-- A call that is settled in a well-formed state does not change it. -/
theorem settled_noop (db : DB) (op : IngestOp) (hinv : DBInv db)
    (hset : settledOp db op) : applyOp db op = db := by
  cases op with
  | session sid title date =>
    show (saveVotingSession db sid title date).1 = db
    unfold saveVotingSession
    dsimp only
    have hset' : sessionExists db ((toNatL sid.data).getD 0) = true := hset
    rw [if_pos hset']
  | vote sess name party v =>
    obtain ⟨p, hfp, hparty, vr, hfv, hvote⟩ := hset
    show (voteUpsert false (politicianUpsert db name party).1 sess
        (politicianUpsert db name party).2 v).1 = db
    rw [politicianUpsert_noop db name party hfp hparty hinv]
    exact voteUpsert_noop db sess p.id v hfv hvote hinv
  | tweets tweetData pid =>
    show (saveTweetsToDatabase db tweetData pid).1 = db
    rw [saveTweetsToDatabase_spec]
    have hnil : tweetData.filter
        (fun t => !((existingTweetIdsOf db pid).contains t.id)) = [] := by
      refine List.filter_eq_nil_iff.mpr (fun t ht => ?_)
      have hc : (existingTweetIdsOf db pid).contains t.id = true :=
        List.elem_iff.mpr (hset t ht)
      rw [hc]
      simp
    dsimp only
    rw [hnil, List.map_nil, List.append_nil]

/-! ### Each call settles itself -/

theorem politicianUpsert_settles (db : DB) (name party : String) :
    ∃ p', findPolitician (politicianUpsert db name party).1 name = some p' ∧
      p'.party = party ∧ p'.id = (politicianUpsert db name party).2 := by
  unfold politicianUpsert
  cases hfind : findPolitician db name with
  | none =>
    dsimp only
    refine ⟨⟨db.nextPoliticianId, name, party, none, db.clock⟩, ?_, rfl, rfl⟩
    unfold findPolitician at hfind ⊢
    dsimp only
    rw [List.find?_append, hfind]
    simp
  | some p0 =>
    dsimp only
    refine ⟨{ p0 with party := party }, ?_, rfl, rfl⟩
    unfold findPolitician at hfind ⊢
    dsimp only
    rw [List.find?_map]
    have hpred : ((fun q : PoliticianRow => jsToLower q.name == jsToLower name) ∘
        (fun q => if q.id = p0.id then { q with party := party } else q)) =
        (fun q : PoliticianRow => jsToLower q.name == jsToLower name) := by
      funext q
      by_cases h : q.id = p0.id <;> simp [Function.comp, h]
    rw [hpred, hfind]
    simp

theorem voteUpsert_settles (db1 : DB) (sess pid : Nat) (v : String) :
    ∃ vr, (voteUpsert false db1 sess pid v).1.votes.find?
      (fun x => x.session_id == sess && x.politician_id == pid) = some vr ∧
      vr.vote = v := by
  cases hfind : db1.votes.find?
      (fun x => x.session_id == sess && x.politician_id == pid) with
  | some vr0 =>
    rw [voteUpsert_update hfind false v]
    dsimp only
    refine ⟨{ vr0 with vote := v }, ?_, rfl⟩
    rw [List.find?_map]
    have hpred : ((fun x : VoteRow => x.session_id == sess && x.politician_id == pid) ∘
        (fun x => if x.id = vr0.id then { x with vote := v } else x)) =
        (fun x : VoteRow => x.session_id == sess && x.politician_id == pid) := by
      funext x
      by_cases h : x.id = vr0.id <;> simp [Function.comp, h]
    rw [hpred, hfind]
    simp
  | none =>
    rw [voteUpsert_insert hfind v]
    dsimp only
    refine ⟨⟨db1.nextVoteId, sess, pid, v, db1.clock⟩, ?_, rfl⟩
    rw [List.find?_append, hfind]
    simp

theorem saveVote_settles (db : DB) (sess : Nat) (name party v : String) :
    settledOp (saveVote db sess name party v) (IngestOp.vote sess name party v) := by
  obtain ⟨p', hfp', hparty', hpid'⟩ := politicianUpsert_settles db name party
  obtain ⟨vr, hfv, hvv⟩ := voteUpsert_settles (politicianUpsert db name party).1 sess
    (politicianUpsert db name party).2 v
  refine ⟨p', ?_, hparty', vr, ?_, hvv⟩
  · show findPolitician (voteUpsert false (politicianUpsert db name party).1 sess
        (politicianUpsert db name party).2 v).1 name = some p'
    unfold findPolitician at hfp' ⊢
    rw [(voteUpsert_frame false (politicianUpsert db name party).1 sess
      (politicianUpsert db name party).2 v).2.1]
    exact hfp'
  · show (voteUpsert false (politicianUpsert db name party).1 sess
        (politicianUpsert db name party).2 v).1.votes.find?
        (fun x => x.session_id == sess && x.politician_id == p'.id) = some vr
    rw [hpid']
    exact hfv

/-- After one ingestion call the call itself is settled. -/
theorem applyOp_settles (db : DB) (op : IngestOp) : settledOp (applyOp db op) op := by
  cases op with
  | session sid title date =>
    show sessionExists (saveVotingSession db sid title date).1
      ((toNatL sid.data).getD 0) = true
    unfold saveVotingSession
    dsimp only
    by_cases hex : sessionExists db ((toNatL sid.data).getD 0)
    · rw [if_pos hex]
      exact hex
    · rw [if_neg hex]
      unfold sessionExists
      dsimp only
      refine List.any_eq_true.mpr ⟨⟨(toNatL sid.data).getD 0, sid, title, date, 0, db.clock⟩,
        List.mem_append_right _ (List.mem_singleton_self _), by simp⟩
  | vote sess name party v => exact saveVote_settles db sess name party v
  | tweets tweetData pid =>
    intro t ht
    show t.id ∈ existingTweetIdsOf (saveTweetsToDatabase db tweetData pid).1 pid
    rw [existingTweetIdsOf_after]
    by_cases hc : (existingTweetIdsOf db pid).contains t.id
    · exact List.mem_append_left _ (List.elem_iff.mp hc)
    · refine List.mem_append_right _ (List.mem_map_of_mem _ (List.mem_filter.mpr ⟨ht, ?_⟩))
      simp only [Bool.not_eq_true] at hc
      rw [hc]
      rfl

/-! ### Weak settledness: the rows a call writes already exist -/

/-- A call is weakly settled in a state when the rows it would create
already exist — its session row, its tweet ids, or its politician row
and its (politician, session) vote row — regardless of the party and
vote values they currently carry. Re-running the call can then only
rewrite one party field and one vote field. -/
def weakSettledOp (db : DB) : IngestOp → Prop
  | IngestOp.session sid _ _ => sessionExists db ((toNatL sid.data).getD 0) = true
  | IngestOp.vote sess name _ _ =>
      ∃ p, findPolitician db name = some p ∧
        ∃ vr, db.votes.find?
          (fun x => x.session_id == sess && x.politician_id == p.id) = some vr
  | IngestOp.tweets tweetData pid =>
      ∀ t ∈ tweetData, t.id ∈ existingTweetIdsOf db pid

theorem settled_imp_weak (db : DB) (op : IngestOp) (h : settledOp db op) :
    weakSettledOp db op := by
  cases op with
  | session sid title date => exact h
  | vote sess name party v =>
    obtain ⟨p, hfp, _, vr, hfv, _⟩ := h
    exact ⟨p, hfp, vr, hfv⟩
  | tweets tweetData pid => exact h

/-- A session that already exists makes `saveVotingSession` a no-op. -/
theorem session_noop (db : DB) (sid title date : String)
    (h : sessionExists db ((toNatL sid.data).getD 0) = true) :
    (saveVotingSession db sid title date).1 = db := by
  unfold saveVotingSession
  dsimp only
  rw [if_pos h]

/-- A tweet batch whose ids are all stored makes `saveTweetsToDatabase` a
no-op. -/
theorem tweets_noop (db : DB) (tweetData : List TweetIn) (pid : Nat)
    (h : ∀ t ∈ tweetData, t.id ∈ existingTweetIdsOf db pid) :
    (saveTweetsToDatabase db tweetData pid).1 = db := by
  rw [saveTweetsToDatabase_spec]
  have hnil : tweetData.filter
      (fun t => !((existingTweetIdsOf db pid).contains t.id)) = [] := by
    refine List.filter_eq_nil_iff.mpr (fun t ht => ?_)
    have hc : (existingTweetIdsOf db pid).contains t.id = true :=
      List.elem_iff.mpr (h t ht)
    rw [hc]
    simp
  dsimp only
  rw [hnil, List.map_nil, List.append_nil]

/-! ### Lookup transport helpers -/

theorem find?_append_of_some {α : Type} {l1 : List α} (l2 : List α) {pred : α → Bool}
    {a : α} (h : l1.find? pred = some a) : (l1 ++ l2).find? pred = some a := by
  rw [List.find?_append, h]
  rfl

theorem find?_map_pres {α : Type} (l : List α) (f : α → α) (pred : α → Bool)
    (hf : ∀ a, pred (f a) = pred a) :
    (l.map f).find? pred = (l.find? pred).map f := by
  rw [List.find?_map]
  have hcomp : pred ∘ f = pred := funext hf
  rw [hcomp]

theorem find?_forall₂ {α : Type} {R : α → α → Prop} {pred : α → Bool}
    (hpred : ∀ a b, R a b → pred a = pred b) :
    ∀ {l l' : List α}, List.Forall₂ R l l' → ∀ {a : α}, l.find? pred = some a →
      ∃ b, l'.find? pred = some b ∧ R a b := by
  intro l l' h
  induction h with
  | nil =>
    intro a ha
    exact absurd ha (by simp)
  | @cons x y l1 l2 hxy htl ih =>
    intro a ha
    by_cases hp : pred x = true
    · rw [List.find?_cons_of_pos l1 hp] at ha
      refine ⟨y, List.find?_cons_of_pos l2 (by rw [← hpred x y hxy]; exact hp), ?_⟩
      rw [← Option.some.inj ha]
      exact hxy
    · rw [List.find?_cons_of_neg l1 hp] at ha
      obtain ⟨b, hb, hR⟩ := ih ha
      have hpy : ¬ pred y = true := by
        rw [← hpred x y hxy]
        exact hp
      refine ⟨b, ?_, hR⟩
      rw [List.find?_cons_of_neg l2 hpy]
      exact hb

theorem forall₂_imp_mem {α : Type} {R R' : α → α → Prop} :
    ∀ {l l' : List α}, List.Forall₂ R l l' →
      (∀ a b, a ∈ l → b ∈ l' → R a b → R' a b) → List.Forall₂ R' l l' := by
  intro l l' h
  induction h with
  | nil => intro _; exact List.Forall₂.nil
  | @cons a b l1 l2 hab htl ih =>
    intro himp
    refine List.Forall₂.cons
      (himp a b (List.mem_cons_self a l1) (List.mem_cons_self b l2) hab) ?_
    exact ih (fun x y hx hy hr =>
      himp x y (List.mem_cons_of_mem a hx) (List.mem_cons_of_mem b hy) hr)

theorem forall₂_map_both {α : Type} {R R' : α → α → Prop} (f g : α → α) :
    ∀ {l l' : List α}, List.Forall₂ R l l' →
      (∀ a b, a ∈ l → b ∈ l' → R a b → R' (f a) (g b)) →
      List.Forall₂ R' (l.map f) (l'.map g) := by
  intro l l' h
  induction h with
  | nil => intro _; exact List.Forall₂.nil
  | @cons a b l1 l2 hab htl ih =>
    intro himp
    refine List.Forall₂.cons
      (himp a b (List.mem_cons_self a l1) (List.mem_cons_self b l2) hab) ?_
    exact ih (fun x y hx hy hr =>
      himp x y (List.mem_cons_of_mem a hx) (List.mem_cons_of_mem b hy) hr)

theorem forall₂_map_self {α : Type} {R : α → α → Prop} (f : α → α) (l : List α)
    (h : ∀ a ∈ l, R a (f a)) : List.Forall₂ R l (l.map f) := by
  induction l with
  | nil => exact List.Forall₂.nil
  | cons a t ih =>
    refine List.Forall₂.cons (h a (List.mem_cons_self a t)) ?_
    exact ih (fun b hb => h b (List.mem_cons_of_mem a hb))

theorem forall₂_eq {α : Type} {R : α → α → Prop} (himp : ∀ a b, R a b → a = b) :
    ∀ {l l' : List α}, List.Forall₂ R l l' → l = l' := by
  intro l l' h
  induction h with
  | nil => rfl
  | @cons a b l1 l2 hab htl ih => rw [himp a b hab, ih]

/-! ### Extensionality of rows and states -/

theorem db_ext {s s' : DB} (h1 : s.sessions = s'.sessions)
    (h2 : s.politicians = s'.politicians) (h3 : s.votes = s'.votes)
    (h4 : s.tweets = s'.tweets) (h5 : s.nextPoliticianId = s'.nextPoliticianId)
    (h6 : s.nextVoteId = s'.nextVoteId) (h7 : s.clock = s'.clock) : s = s' := by
  cases s
  cases s'
  dsimp only at h1 h2 h3 h4 h5 h6 h7
  rw [h1, h2, h3, h4, h5, h6, h7]

theorem politicianRow_ext {p q : PoliticianRow} (h1 : p.id = q.id) (h2 : p.name = q.name)
    (h3 : p.party = q.party) (h4 : p.twitter_handle = q.twitter_handle)
    (h5 : p.created_at = q.created_at) : p = q := by
  cases p
  cases q
  dsimp only at h1 h2 h3 h4 h5
  rw [h1, h2, h3, h4, h5]

theorem voteRow_ext {x y : VoteRow} (h1 : x.id = y.id) (h2 : x.session_id = y.session_id)
    (h3 : x.politician_id = y.politician_id) (h4 : x.vote = y.vote)
    (h5 : x.created_at = y.created_at) : x = y := by
  cases x
  cases y
  dsimp only at h1 h2 h3 h4 h5
  rw [h1, h2, h3, h4, h5]

/-- Two stored rows with the same (politician, session) pair are the same
row when the pairs are unique. -/
theorem pairUnique_eq {db : DB} (hpu : VotePairUnique db) {x y : VoteRow}
    (hx : x ∈ db.votes) (hy : y ∈ db.votes)
    (h1 : x.politician_id = y.politician_id) (h2 : x.session_id = y.session_id) : x = y := by
  have hpu' : (db.votes.map (fun v => (v.politician_id, v.session_id))).Nodup := hpu
  exact List.inj_on_of_nodup_map hpu' hx hy (by simp [h1, h2])

/-! ### Closed forms of the politician step -/

theorem politicianUpsert_found (db : DB) (name party : String) {p : PoliticianRow}
    (hfind : findPolitician db name = some p) :
    politicianUpsert db name party =
      ({ db with
          politicians := db.politicians.map
            (fun q => if q.id = p.id then { q with party := party } else q) }, p.id) := by
  unfold politicianUpsert
  rw [hfind]

theorem politicianUpsert_notfound (db : DB) (name party : String)
    (hfind : findPolitician db name = none) :
    politicianUpsert db name party =
      ({ db with
          politicians :=
            db.politicians ++ [⟨db.nextPoliticianId, name, party, none, db.clock⟩],
          nextPoliticianId := db.nextPoliticianId + 1,
          clock := db.clock + 1 }, db.nextPoliticianId) := by
  unfold politicianUpsert
  rw [hfind]

/-! ### Resolution stability -/

/-- A name resolving to a stored politician id. -/
def resolvesTo (db : DB) (name : String) (pid : Nat) : Prop :=
  ∃ p, findPolitician db name = some p ∧ p.id = pid

theorem resolvedPid_of_find {db : DB} {name : String} {p : PoliticianRow}
    (h : findPolitician db name = some p) : resolvedPid db name = p.id := by
  unfold resolvedPid
  rw [h]

/-- The politician step never changes the id a resolved name resolves
to: the party update keeps ids and names, and an appended row cannot
shadow an earlier first match. -/
theorem findPolitician_politicianUpsert (db : DB) (name2 party2 : String) {name : String}
    {p : PoliticianRow} (hfp : findPolitician db name = some p) :
    ∃ p', findPolitician (politicianUpsert db name2 party2).1 name = some p' ∧
      p'.id = p.id := by
  cases hf2 : findPolitician db name2 with
  | none =>
    rw [politicianUpsert_notfound db name2 party2 hf2]
    refine ⟨p, ?_, rfl⟩
    unfold findPolitician at hfp ⊢
    dsimp only
    exact find?_append_of_some _ hfp
  | some p2 =>
    rw [politicianUpsert_found db name2 party2 hf2]
    have hpres : ∀ a : PoliticianRow,
        (fun q : PoliticianRow => jsToLower q.name == jsToLower name)
          (if a.id = p2.id then { a with party := party2 } else a) =
        (fun q : PoliticianRow => jsToLower q.name == jsToLower name) a := by
      intro a
      by_cases h : a.id = p2.id <;> simp [h]
    refine ⟨if p.id = p2.id then { p with party := party2 } else p, ?_, ?_⟩
    · unfold findPolitician at hfp ⊢
      dsimp only
      rw [find?_map_pres _ _ _ hpres, hfp]
      rfl
    · by_cases h : p.id = p2.id <;> simp [h]

/-- Once a name resolves to an id it keeps resolving to it through any
later ingestion call. -/
theorem resolvesTo_mono (db : DB) (op : IngestOp) {name : String} {pid : Nat}
    (h : resolvesTo db name pid) : resolvesTo (applyOp db op) name pid := by
  obtain ⟨p, hfp, hid⟩ := h
  cases op with
  | session sid title date =>
    refine ⟨p, ?_, hid⟩
    show findPolitician (saveVotingSession db sid title date).1 name = some p
    unfold findPolitician at hfp ⊢
    rw [(saveVotingSession_frame db sid title date).1]
    exact hfp
  | tweets tweetData pid2 =>
    refine ⟨p, ?_, hid⟩
    show findPolitician (saveTweetsToDatabase db tweetData pid2).1 name = some p
    rw [saveTweetsToDatabase_spec]
    exact hfp
  | vote sess2 name2 party2 v2 =>
    obtain ⟨p', hfp', hpid'⟩ := findPolitician_politicianUpsert db name2 party2 hfp
    refine ⟨p', ?_, hpid'.trans hid⟩
    show findPolitician (voteUpsert false (politicianUpsert db name2 party2).1 sess2
        (politicianUpsert db name2 party2).2 v2).1 name = some p'
    unfold findPolitician at hfp' ⊢
    rw [(voteUpsert_frame false (politicianUpsert db name2 party2).1 sess2
      (politicianUpsert db name2 party2).2 v2).2.1]
    exact hfp'

theorem resolvesTo_batch (batch : List IngestOp) (db : DB) {name : String} {pid : Nat}
    (h : resolvesTo db name pid) : resolvesTo (applyBatch db batch) name pid := by
  induction batch generalizing db with
  | nil => exact h
  | cons o rest ih =>
    show resolvesTo (applyBatch (applyOp db o) rest) name pid
    exact ih (applyOp db o) (resolvesTo_mono db o h)

/-! ### Weak settledness is established and never lost -/

/-- Weak settledness is preserved by ANY later ingestion call — no
compatibility assumption: rows are never removed, and in-place updates
keep ids, names and (politician, session) pairs. -/
theorem weak_mono (db : DB) (op op' : IngestOp) (h : weakSettledOp db op) :
    weakSettledOp (applyOp db op') op := by
  cases op with
  | session sid title date => exact sessionExists_mono db op' _ h
  | tweets tweetData pid =>
    intro t ht
    exact existingTweetIdsOf_mono db op' pid t.id (h t ht)
  | vote sess name party v =>
    obtain ⟨p, hfp, vr, hfv⟩ := h
    cases op' with
    | session sid2 title2 date2 =>
      refine ⟨p, ?_, vr, ?_⟩
      · show findPolitician (saveVotingSession db sid2 title2 date2).1 name = some p
        unfold findPolitician at hfp ⊢
        rw [(saveVotingSession_frame db sid2 title2 date2).1]
        exact hfp
      · show (saveVotingSession db sid2 title2 date2).1.votes.find? _ = some vr
        rw [(saveVotingSession_frame db sid2 title2 date2).2.1]
        exact hfv
    | tweets data2 pid2 =>
      refine ⟨p, ?_, vr, ?_⟩
      · show findPolitician (saveTweetsToDatabase db data2 pid2).1 name = some p
        rw [saveTweetsToDatabase_spec]
        exact hfp
      · show (saveTweetsToDatabase db data2 pid2).1.votes.find? _ = some vr
        rw [saveTweetsToDatabase_spec]
        exact hfv
    | vote sess2 name2 party2 v2 =>
      obtain ⟨p', hfp', hpid'⟩ := findPolitician_politicianUpsert db name2 party2 hfp
      have hfp'' : findPolitician (voteUpsert false (politicianUpsert db name2 party2).1
          sess2 (politicianUpsert db name2 party2).2 v2).1 name = some p' := by
        unfold findPolitician at hfp' ⊢
        rw [(voteUpsert_frame false (politicianUpsert db name2 party2).1 sess2
          (politicianUpsert db name2 party2).2 v2).2.1]
        exact hfp'
      have hfv1 : (politicianUpsert db name2 party2).1.votes.find?
          (fun x => x.session_id == sess && x.politician_id == p'.id) = some vr := by
        rw [politicianUpsert_votes]
        simp only [hpid']
        exact hfv
      refine ⟨p', hfp'', ?_⟩
      show ∃ w, (voteUpsert false (politicianUpsert db name2 party2).1 sess2
          (politicianUpsert db name2 party2).2 v2).1.votes.find?
          (fun x => x.session_id == sess && x.politician_id == p'.id) = some w
      cases hf2 : (politicianUpsert db name2 party2).1.votes.find?
          (fun x => x.session_id == sess2 &&
            x.politician_id == (politicianUpsert db name2 party2).2) with
      | some vr2 =>
        rw [voteUpsert_update hf2 false v2]
        dsimp only
        have hvpres : ∀ a : VoteRow,
            (fun x : VoteRow => x.session_id == sess && x.politician_id == p'.id)
              (if a.id = vr2.id then { a with vote := v2 } else a) =
            (fun x : VoteRow => x.session_id == sess && x.politician_id == p'.id) a := by
          intro a
          by_cases hc : a.id = vr2.id <;> simp [hc]
        refine ⟨if vr.id = vr2.id then { vr with vote := v2 } else vr, ?_⟩
        rw [find?_map_pres _ _ _ hvpres, hfv1]
        rfl
      | none =>
        rw [voteUpsert_insert hf2 v2]
        dsimp only
        exact ⟨vr, find?_append_of_some _ hfv1⟩

theorem weak_settled_through (batch : List IngestOp) (db : DB) (op : IngestOp)
    (h : weakSettledOp db op) : weakSettledOp (applyBatch db batch) op := by
  induction batch generalizing db with
  | nil => exact h
  | cons o rest ih =>
    show weakSettledOp (applyBatch (applyOp db o) rest) op
    exact ih (applyOp db o) (weak_mono db op o h)

/-- After one run of ANY batch — no compatibility assumption — every one
of its calls is weakly settled: all the structure it writes exists. -/
theorem weak_batch_settles (batch : List IngestOp) (db : DB) :
    ∀ op ∈ batch, weakSettledOp (applyBatch db batch) op := by
  induction batch generalizing db with
  | nil =>
    intro op h
    exact absurd h (List.not_mem_nil op)
  | cons o rest ih =>
    intro op hop
    rcases List.mem_cons.mp hop with rfl | hmem
    · show weakSettledOp (applyBatch (applyOp db op) rest) op
      exact weak_settled_through rest (applyOp db op) op
        (settled_imp_weak (applyOp db op) op (applyOp_settles db op))
    · show weakSettledOp (applyBatch (applyOp db o) rest) op
      exact ih (applyOp db o) op hmem

/-- A whole batch preserves the state invariant. -/
theorem applyBatch_inv (batch : List IngestOp) (db : DB) (hinv : DBInv db) :
    DBInv (applyBatch db batch) := by
  induction batch generalizing db with
  | nil => exact hinv
  | cons o rest ih => exact ih (applyOp db o) (applyOp_inv db o hinv)

/-! ### Field writers -/

/-- The politician id whose party a call writes, resolved in state `m`. -/
def opWritesParty (m : DB) : IngestOp → Nat → Prop
  | IngestOp.vote _ n _ _, pid => resolvedPid m n = pid
  | _, _ => False

/-- The (politician, session) pair whose vote value a call writes,
resolved in state `m`. -/
def opWritesVote (m : DB) : IngestOp → Nat → Nat → Prop
  | IngestOp.vote s n _ _, pid, sess => s = sess ∧ resolvedPid m n = pid
  | _, _, _ => False

/-- Some call of the batch writes this politician's party. -/
def partyWriter (batch : List IngestOp) (m : DB) (pid : Nat) : Prop :=
  ∃ op ∈ batch, opWritesParty m op pid

/-- Some call of the batch writes this pair's vote value. -/
def voteWriter (batch : List IngestOp) (m : DB) (pid sess : Nat) : Prop :=
  ∃ op ∈ batch, opWritesVote m op pid sess

/-- A stored politician id survives every ingestion call. -/
theorem polExists_mono (db : DB) (op : IngestOp) {pid : Nat}
    (h : ∃ q ∈ db.politicians, q.id = pid) :
    ∃ q ∈ (applyOp db op).politicians, q.id = pid := by
  obtain ⟨q, hq, hid⟩ := h
  cases op with
  | session sid title date =>
    refine ⟨q, ?_, hid⟩
    show q ∈ (saveVotingSession db sid title date).1.politicians
    rw [(saveVotingSession_frame db sid title date).1]
    exact hq
  | tweets tweetData pid2 =>
    refine ⟨q, ?_, hid⟩
    show q ∈ (saveTweetsToDatabase db tweetData pid2).1.politicians
    rw [saveTweetsToDatabase_spec]
    exact hq
  | vote sess2 name2 party2 v2 =>
    have hpols : (applyOp db (IngestOp.vote sess2 name2 party2 v2)).politicians =
        (politicianUpsert db name2 party2).1.politicians :=
      (voteUpsert_frame false (politicianUpsert db name2 party2).1 sess2
        (politicianUpsert db name2 party2).2 v2).2.1
    rw [hpols]
    cases hf2 : findPolitician db name2 with
    | none =>
      rw [politicianUpsert_notfound db name2 party2 hf2]
      exact ⟨q, List.mem_append_left _ hq, hid⟩
    | some p2 =>
      rw [politicianUpsert_found db name2 party2 hf2]
      refine ⟨if q.id = p2.id then { q with party := party2 } else q,
        List.mem_map_of_mem _ hq, ?_⟩
      by_cases hc : q.id = p2.id
      · rw [if_pos hc]
        exact hid
      · rw [if_neg hc]
        exact hid

/-! ### Persistence: an unwritten field keeps its value to the end -/

/-- A politician's party persists to the end of a run unless some call of
the run writes that politician's party (writers are resolved in the end
state — resolution is stable along the run). -/
theorem party_persists (batch : List IngestOp) :
    ∀ (t : DB) (pid : Nat) (partyVal : String), DBInv t →
    (∃ q ∈ t.politicians, q.id = pid) →
    (∀ q ∈ t.politicians, q.id = pid → q.party = partyVal) →
    ¬ partyWriter batch (applyBatch t batch) pid →
    ∀ q ∈ (applyBatch t batch).politicians, q.id = pid → q.party = partyVal := by
  induction batch with
  | nil =>
    intro t pid partyVal _ _ hval _
    exact hval
  | cons o rest ih =>
    intro t pid partyVal hinv hex hval hnw
    show ∀ q ∈ (applyBatch (applyOp t o) rest).politicians, q.id = pid → q.party = partyVal
    refine ih (applyOp t o) pid partyVal (applyOp_inv t o hinv) (polExists_mono t o hex)
      ?_ ?_
    · cases o with
      | session sid title date =>
        intro q hq hid
        have hpols : (applyOp t (IngestOp.session sid title date)).politicians =
            t.politicians := (saveVotingSession_frame t sid title date).1
        rw [hpols] at hq
        exact hval q hq hid
      | tweets tweetData pid2 =>
        intro q hq hid
        have hpols : (applyOp t (IngestOp.tweets tweetData pid2)).politicians =
            t.politicians := by
          show (saveTweetsToDatabase t tweetData pid2).1.politicians = t.politicians
          rw [saveTweetsToDatabase_spec]
        rw [hpols] at hq
        exact hval q hq hid
      | vote sess3 n3 p3 v3 =>
        intro q hq hid
        have hpols : (applyOp t (IngestOp.vote sess3 n3 p3 v3)).politicians =
            (politicianUpsert t n3 p3).1.politicians :=
          (voteUpsert_frame false (politicianUpsert t n3 p3).1 sess3
            (politicianUpsert t n3 p3).2 v3).2.1
        rw [hpols] at hq
        cases hf3 : findPolitician t n3 with
        | some p3f =>
          rw [politicianUpsert_found t n3 p3 hf3] at hq
          have hne : p3f.id ≠ pid := by
            intro heq
            apply hnw
            refine ⟨IngestOp.vote sess3 n3 p3 v3, List.mem_cons_self _ _, ?_⟩
            show resolvedPid (applyBatch t (IngestOp.vote sess3 n3 p3 v3 :: rest)) n3 = pid
            obtain ⟨pp, hfpp, hppid⟩ :=
              resolvesTo_batch (IngestOp.vote sess3 n3 p3 v3 :: rest) t ⟨p3f, hf3, heq⟩
            rw [resolvedPid_of_find hfpp]
            exact hppid
          obtain ⟨q0, hq0, hq0eq⟩ := List.mem_map.mp hq
          by_cases hc : q0.id = p3f.id
          · exfalso
            rw [if_pos hc] at hq0eq
            have hqid : q.id = q0.id := by
              rw [← hq0eq]
            exact hne ((hc.symm.trans hqid.symm).trans hid)
          · rw [if_neg hc] at hq0eq
            rw [← hq0eq]
            exact hval q0 hq0 (by rw [hq0eq]; exact hid)
        | none =>
          rw [politicianUpsert_notfound t n3 p3 hf3] at hq
          rcases List.mem_append.mp hq with hql | hqr
          · exact hval q hql hid
          · exfalso
            have hq' : q = ⟨t.nextPoliticianId, n3, p3, none, t.clock⟩ :=
              List.mem_singleton.mp hqr
            obtain ⟨q1, hq1, hq1id⟩ := hex
            have hlt : q1.id < t.nextPoliticianId := hinv.2.2.2.2.1 q1 hq1
            have hqnew : q.id = t.nextPoliticianId := by rw [hq']
            omega
    · intro hw
      apply hnw
      obtain ⟨op, hop, hwo⟩ := hw
      exact ⟨op, List.mem_cons_of_mem o hop, hwo⟩

/-- A pair row's vote value persists to the end of a run unless some call
of the run writes that (politician, session) pair. -/
theorem vote_persists (batch : List IngestOp) :
    ∀ (t : DB) (pid sess : Nat) (val : String), DBInv t →
    (∀ x ∈ t.votes, x.politician_id = pid → x.session_id = sess → x.vote = val) →
    ¬ voteWriter batch (applyBatch t batch) pid sess →
    ∀ x ∈ (applyBatch t batch).votes, x.politician_id = pid → x.session_id = sess →
      x.vote = val := by
  induction batch with
  | nil =>
    intro t pid sess val _ hval _
    exact hval
  | cons o rest ih =>
    intro t pid sess val hinv hval hnw
    show ∀ x ∈ (applyBatch (applyOp t o) rest).votes, x.politician_id = pid →
      x.session_id = sess → x.vote = val
    refine ih (applyOp t o) pid sess val (applyOp_inv t o hinv) ?_ ?_
    · cases o with
      | session sid title date =>
        intro x hx h1 h2
        have hv : (applyOp t (IngestOp.session sid title date)).votes = t.votes :=
          (saveVotingSession_frame t sid title date).2.1
        rw [hv] at hx
        exact hval x hx h1 h2
      | tweets tweetData pid2 =>
        intro x hx h1 h2
        have hv : (applyOp t (IngestOp.tweets tweetData pid2)).votes = t.votes := by
          show (saveTweetsToDatabase t tweetData pid2).1.votes = t.votes
          rw [saveTweetsToDatabase_spec]
        rw [hv] at hx
        exact hval x hx h1 h2
      | vote sess3 n3 p3 v3 =>
        intro x hx h1 h2
        have hres : resolvedPid (applyBatch t (IngestOp.vote sess3 n3 p3 v3 :: rest)) n3 =
            (politicianUpsert t n3 p3).2 := by
          obtain ⟨p', hfp', hparty', hpid'⟩ := politicianUpsert_settles t n3 p3
          have hfp'' : findPolitician (applyOp t (IngestOp.vote sess3 n3 p3 v3)) n3 =
              some p' := by
            show findPolitician (voteUpsert false (politicianUpsert t n3 p3).1 sess3
                (politicianUpsert t n3 p3).2 v3).1 n3 = some p'
            unfold findPolitician at hfp' ⊢
            rw [(voteUpsert_frame false (politicianUpsert t n3 p3).1 sess3
              (politicianUpsert t n3 p3).2 v3).2.1]
            exact hfp'
          obtain ⟨pp, hfpp, hppid⟩ := resolvesTo_batch rest
            (applyOp t (IngestOp.vote sess3 n3 p3 v3)) ⟨p', hfp'', hpid'⟩
          show resolvedPid (applyBatch (applyOp t (IngestOp.vote sess3 n3 p3 v3)) rest) n3 = _
          rw [resolvedPid_of_find hfpp]
          exact hppid
        have hpuv : (politicianUpsert t n3 p3).1.votes = t.votes :=
          politicianUpsert_votes t n3 p3
        have hvx : (applyOp t (IngestOp.vote sess3 n3 p3 v3)).votes =
            (voteUpsert false (politicianUpsert t n3 p3).1 sess3
              (politicianUpsert t n3 p3).2 v3).1.votes := rfl
        rw [hvx] at hx
        cases hf3 : (politicianUpsert t n3 p3).1.votes.find?
            (fun y => y.session_id == sess3 &&
              y.politician_id == (politicianUpsert t n3 p3).2) with
        | some vr3 =>
          rw [voteUpsert_update hf3 false v3] at hx
          dsimp only at hx
          rw [hpuv] at hx
          obtain ⟨x0, hx0, hx0eq⟩ := List.mem_map.mp hx
          by_cases hc : x0.id = vr3.id
          · exfalso
            have hvr3mem : vr3 ∈ t.votes := by
              have hm := List.mem_of_find?_eq_some hf3
              rw [hpuv] at hm
              exact hm
            have hx0vr : x0 = vr3 := List.inj_on_of_nodup_map hinv.1 hx0 hvr3mem hc
            have hprops := List.find?_some hf3
            simp only [Bool.and_eq_true, beq_iff_eq] at hprops
            rw [if_pos hc] at hx0eq
            have hxpid : x0.politician_id = pid := by rw [← h1, ← hx0eq]
            have hxsid : x0.session_id = sess := by rw [← h2, ← hx0eq]
            apply hnw
            refine ⟨IngestOp.vote sess3 n3 p3 v3, List.mem_cons_self _ _, ?_, ?_⟩
            · have hvs : vr3.session_id = sess := by rw [← hx0vr]; exact hxsid
              exact hprops.1.symm.trans hvs
            · have hvp : vr3.politician_id = pid := by rw [← hx0vr]; exact hxpid
              show resolvedPid (applyBatch t (IngestOp.vote sess3 n3 p3 v3 :: rest)) n3 = pid
              rw [hres]
              exact hprops.2.symm.trans hvp
          · rw [if_neg hc] at hx0eq
            rw [← hx0eq]
            exact hval x0 hx0 (by rw [hx0eq]; exact h1) (by rw [hx0eq]; exact h2)
        | none =>
          rw [voteUpsert_insert hf3 v3] at hx
          dsimp only at hx
          rw [hpuv] at hx
          rcases List.mem_append.mp hx with hxl | hxr
          · exact hval x hxl h1 h2
          · exfalso
            have hx' : x = ⟨(politicianUpsert t n3 p3).1.nextVoteId, sess3,
                (politicianUpsert t n3 p3).2, v3, (politicianUpsert t n3 p3).1.clock⟩ :=
              List.mem_singleton.mp hxr
            apply hnw
            refine ⟨IngestOp.vote sess3 n3 p3 v3, List.mem_cons_self _ _, ?_, ?_⟩
            · rw [← h2, hx']
            · show resolvedPid (applyBatch t (IngestOp.vote sess3 n3 p3 v3 :: rest)) n3 = pid
              rw [hres, ← h1, hx']
    · intro hw
      apply hnw
      obtain ⟨op, hop, hwo⟩ := hw
      exact ⟨op, List.mem_cons_of_mem o hop, hwo⟩

/-! ### Field rewrites do not disturb resolution or settledness -/

/-- Party and vote field rewrites do not change what a name resolves
to. -/
theorem resolvedPid_rewrite (s : DB) (pid0 vid0 : Nat) (pa vv : String) (n : String) :
    resolvedPid { s with
      politicians := s.politicians.map
        (fun q => if q.id = pid0 then { q with party := pa } else q),
      votes := s.votes.map
        (fun x => if x.id = vid0 then { x with vote := vv } else x) } n =
    resolvedPid s n := by
  have hpres : ∀ a : PoliticianRow,
      (fun q : PoliticianRow => jsToLower q.name == jsToLower n)
        (if a.id = pid0 then { a with party := pa } else a) =
      (fun q : PoliticianRow => jsToLower q.name == jsToLower n) a := by
    intro a
    by_cases h : a.id = pid0 <;> simp [h]
  unfold resolvedPid findPolitician
  dsimp only
  rw [find?_map_pres _ _ _ hpres]
  cases h : s.politicians.find? (fun p => jsToLower p.name == jsToLower n) with
  | none => rfl
  | some p =>
    dsimp only
    by_cases hc : p.id = pid0 <;> simp [hc]

theorem opWritesParty_rewrite (s : DB) (pid0 vid0 : Nat) (pa vv : String) (op : IngestOp)
    (pid : Nat) (h : opWritesParty s op pid) :
    opWritesParty { s with
      politicians := s.politicians.map
        (fun q => if q.id = pid0 then { q with party := pa } else q),
      votes := s.votes.map
        (fun x => if x.id = vid0 then { x with vote := vv } else x) } op pid := by
  cases op with
  | session sid title date => exact False.elim h
  | tweets td pid2 => exact False.elim h
  | vote s3 n3 p3 v3 =>
    show resolvedPid _ n3 = pid
    rw [resolvedPid_rewrite]
    exact h

theorem opWritesVote_rewrite (s : DB) (pid0 vid0 : Nat) (pa vv : String) (op : IngestOp)
    (pid sess : Nat) (h : opWritesVote s op pid sess) :
    opWritesVote { s with
      politicians := s.politicians.map
        (fun q => if q.id = pid0 then { q with party := pa } else q),
      votes := s.votes.map
        (fun x => if x.id = vid0 then { x with vote := vv } else x) } op pid sess := by
  cases op with
  | session sid title date => exact False.elim h
  | tweets td pid2 => exact False.elim h
  | vote s3 n3 p3 v3 =>
    refine ⟨h.1, ?_⟩
    show resolvedPid _ n3 = pid
    rw [resolvedPid_rewrite]
    exact h.2

/-- Party and vote field rewrites preserve weak settledness. -/
theorem weak_settled_rewrite (s : DB) (pid0 vid0 : Nat) (pa vv : String) (op : IngestOp)
    (h : weakSettledOp s op) :
    weakSettledOp { s with
      politicians := s.politicians.map
        (fun q => if q.id = pid0 then { q with party := pa } else q),
      votes := s.votes.map
        (fun x => if x.id = vid0 then { x with vote := vv } else x) } op := by
  cases op with
  | session sid title date => exact h
  | tweets tweetData pid => exact h
  | vote sess name party v =>
    obtain ⟨p, hfp, vr, hfv⟩ := h
    have hpres : ∀ a : PoliticianRow,
        (fun q : PoliticianRow => jsToLower q.name == jsToLower name)
          (if a.id = pid0 then { a with party := pa } else a) =
        (fun q : PoliticianRow => jsToLower q.name == jsToLower name) a := by
      intro a
      by_cases hc : a.id = pid0 <;> simp [hc]
    refine ⟨if p.id = pid0 then { p with party := pa } else p, ?_, ?_⟩
    · unfold findPolitician at hfp ⊢
      dsimp only
      rw [find?_map_pres _ _ _ hpres, hfp]
      rfl
    · have hid : (if p.id = pid0 then { p with party := pa } else p).id = p.id := by
        by_cases hc : p.id = pid0 <;> simp [hc]
      simp only [hid]
      have hvpres : ∀ a : VoteRow,
          (fun x : VoteRow => x.session_id == sess && x.politician_id == p.id)
            (if a.id = vid0 then { a with vote := vv } else a) =
          (fun x : VoteRow => x.session_id == sess && x.politician_id == p.id) a := by
        intro a
        by_cases hc : a.id = vid0 <;> simp [hc]
      refine ⟨if vr.id = vid0 then { vr with vote := vv } else vr, ?_⟩
      dsimp only
      rw [find?_map_pres _ _ _ hvpres, hfv]
      rfl

/-! ### Replay convergence -/

/-- Pointwise politician correspondence: equal except possibly the party
field, any disagreement covered by a later party write of the batch. -/
def pCovered (batch : List IngestOp) (m : DB) (p q : PoliticianRow) : Prop :=
  p.id = q.id ∧ p.name = q.name ∧ p.twitter_handle = q.twitter_handle ∧
  p.created_at = q.created_at ∧ (p.party ≠ q.party → partyWriter batch m p.id)

/-- Pointwise vote-row correspondence: equal except possibly the vote
field, any disagreement covered by a later vote write of the batch. -/
def vCovered (batch : List IngestOp) (m : DB) (x y : VoteRow) : Prop :=
  x.id = y.id ∧ x.session_id = y.session_id ∧ x.politician_id = y.politician_id ∧
  x.created_at = y.created_at ∧
  (x.vote ≠ y.vote → voteWriter batch m x.politician_id x.session_id)

theorem forall₂_pCovered_tail {o : IngestOp} {rest : List IngestOp} {s : DB}
    {l l' : List PoliticianRow} (h : List.Forall₂ (pCovered (o :: rest) s) l l')
    (hno : ∀ pid, ¬ opWritesParty s o pid) :
    List.Forall₂ (pCovered rest s) l l' := by
  refine forall₂_imp_mem h (fun a b _ _ hab => ?_)
  obtain ⟨h1, h2, h3, h4, h5⟩ := hab
  refine ⟨h1, h2, h3, h4, fun hne => ?_⟩
  obtain ⟨op, hop, hw⟩ := h5 hne
  rcases List.mem_cons.mp hop with rfl | hmem
  · exact absurd hw (hno a.id)
  · exact ⟨op, hmem, hw⟩

theorem forall₂_vCovered_tail {o : IngestOp} {rest : List IngestOp} {s : DB}
    {l l' : List VoteRow} (h : List.Forall₂ (vCovered (o :: rest) s) l l')
    (hno : ∀ pid sess, ¬ opWritesVote s o pid sess) :
    List.Forall₂ (vCovered rest s) l l' := by
  refine forall₂_imp_mem h (fun a b _ _ hab => ?_)
  obtain ⟨h1, h2, h3, h4, h5⟩ := hab
  refine ⟨h1, h2, h3, h4, fun hne => ?_⟩
  obtain ⟨op, hop, hw⟩ := h5 hne
  rcases List.mem_cons.mp hop with rfl | hmem
  · exact absurd hw (hno a.politician_id a.session_id)
  · exact ⟨op, hmem, hw⟩

/-- Replay convergence: two states that agree on everything except party
and vote fields, every disagreement being covered by a later write of the
batch, are mapped to the SAME state by the batch — every write stores a
value taken from the call, not from the state, so the last write wins
identically on both sides. -/
theorem batch_converges (batch : List IngestOp) :
    ∀ (s s' : DB), DBInv s →
    (∀ op ∈ batch, weakSettledOp s op) →
    s'.sessions = s.sessions → s'.tweets = s.tweets →
    s'.nextPoliticianId = s.nextPoliticianId → s'.nextVoteId = s.nextVoteId →
    s'.clock = s.clock →
    List.Forall₂ (pCovered batch s) s.politicians s'.politicians →
    List.Forall₂ (vCovered batch s) s.votes s'.votes →
    applyBatch s batch = applyBatch s' batch := by
  induction batch with
  | nil =>
    intro s s' hinv hws hsess htw hnp hnv hck hpols hvotes
    show s = s'
    refine db_ext hsess.symm ?_ ?_ htw.symm hnp.symm hnv.symm hck.symm
    · refine forall₂_eq (fun a b hab => ?_) hpols
      obtain ⟨h1, h2, h3, h4, h5⟩ := hab
      have hpar : a.party = b.party := by
        by_contra hne
        obtain ⟨op, hop, _⟩ := h5 hne
        exact absurd hop (List.not_mem_nil op)
      exact politicianRow_ext h1 h2 hpar h3 h4
    · refine forall₂_eq (fun a b hab => ?_) hvotes
      obtain ⟨h1, h2, h3, h4, h5⟩ := hab
      have hv : a.vote = b.vote := by
        by_contra hne
        obtain ⟨op, hop, _⟩ := h5 hne
        exact absurd hop (List.not_mem_nil op)
      exact voteRow_ext h1 h2 h3 hv h4
  | cons o rest ih =>
    intro s s' hinv hws hsess htw hnp hnv hck hpols hvotes
    show applyBatch (applyOp s o) rest = applyBatch (applyOp s' o) rest
    cases o with
    | session sid title date =>
      have hx : sessionExists s ((toNatL sid.data).getD 0) = true :=
        hws _ (List.mem_cons_self _ _)
      have hx' : sessionExists s' ((toNatL sid.data).getD 0) = true := by
        unfold sessionExists at hx ⊢
        rw [hsess]
        exact hx
      have hn : applyOp s (IngestOp.session sid title date) = s :=
        session_noop s sid title date hx
      have hn' : applyOp s' (IngestOp.session sid title date) = s' :=
        session_noop s' sid title date hx'
      rw [hn, hn']
      exact ih s s' hinv (fun op hop => hws op (List.mem_cons_of_mem _ hop))
        hsess htw hnp hnv hck
        (forall₂_pCovered_tail hpols (fun pid hw => hw))
        (forall₂_vCovered_tail hvotes (fun pid sess hw => hw))
    | tweets tweetData pid =>
      have hset : ∀ t ∈ tweetData, t.id ∈ existingTweetIdsOf s pid :=
        hws _ (List.mem_cons_self _ _)
      have hset' : ∀ t ∈ tweetData, t.id ∈ existingTweetIdsOf s' pid := by
        intro t ht
        have hoe : existingTweetIdsOf s' pid = existingTweetIdsOf s pid := by
          unfold existingTweetIdsOf
          rw [htw]
        rw [hoe]
        exact hset t ht
      have hn : applyOp s (IngestOp.tweets tweetData pid) = s :=
        tweets_noop s tweetData pid hset
      have hn' : applyOp s' (IngestOp.tweets tweetData pid) = s' :=
        tweets_noop s' tweetData pid hset'
      rw [hn, hn']
      exact ih s s' hinv (fun op hop => hws op (List.mem_cons_of_mem _ hop))
        hsess htw hnp hnv hck
        (forall₂_pCovered_tail hpols (fun pid2 hw => hw))
        (forall₂_vCovered_tail hvotes (fun pid2 sess hw => hw))
    | vote sess2 n2 party2 v2 =>
      obtain ⟨p, hfp, vr, hfv⟩ := hws _ (List.mem_cons_self _ _)
      have hname_pres : ∀ a b : PoliticianRow,
          pCovered (IngestOp.vote sess2 n2 party2 v2 :: rest) s a b →
          (fun q : PoliticianRow => jsToLower q.name == jsToLower n2) a =
          (fun q : PoliticianRow => jsToLower q.name == jsToLower n2) b := by
        intro a b hab
        dsimp only
        rw [hab.2.1]
      have hfp0 : s.politicians.find?
          (fun q => jsToLower q.name == jsToLower n2) = some p := hfp
      obtain ⟨qq, hfq0, hRq⟩ := find?_forall₂ hname_pres hpols hfp0
      have hfq : findPolitician s' n2 = some qq := hfq0
      have hqid : qq.id = p.id := hRq.1.symm
      have hpair_pres : ∀ a b : VoteRow,
          vCovered (IngestOp.vote sess2 n2 party2 v2 :: rest) s a b →
          (fun x : VoteRow => x.session_id == sess2 && x.politician_id == p.id) a =
          (fun x : VoteRow => x.session_id == sess2 && x.politician_id == p.id) b := by
        intro a b hab
        dsimp only
        rw [hab.2.1, hab.2.2.1]
      obtain ⟨w, hfw, hRw⟩ := find?_forall₂ hpair_pres hvotes hfv
      have hwid : w.id = vr.id := hRw.1.symm
      have happ : applyOp s (IngestOp.vote sess2 n2 party2 v2) =
          { s with
            politicians := s.politicians.map
              (fun y => if y.id = p.id then { y with party := party2 } else y),
            votes := s.votes.map
              (fun x => if x.id = vr.id then { x with vote := v2 } else x) } := by
        have hfv1 : (politicianUpsert s n2 party2).1.votes.find?
            (fun x => x.session_id == sess2 && x.politician_id == p.id) = some vr := by
          rw [politicianUpsert_votes]
          exact hfv
        have hpid2 : (politicianUpsert s n2 party2).2 = p.id := by
          rw [politicianUpsert_found s n2 party2 hfp]
        show (voteUpsert false (politicianUpsert s n2 party2).1 sess2
            (politicianUpsert s n2 party2).2 v2).1 = _
        rw [hpid2, voteUpsert_update hfv1 false v2,
          politicianUpsert_found s n2 party2 hfp]
      have hfw' : s'.votes.find?
          (fun x => x.session_id == sess2 && x.politician_id == qq.id) = some w := by
        simp only [hqid]
        exact hfw
      have happ' : applyOp s' (IngestOp.vote sess2 n2 party2 v2) =
          { s' with
            politicians := s'.politicians.map
              (fun y => if y.id = p.id then { y with party := party2 } else y),
            votes := s'.votes.map
              (fun x => if x.id = vr.id then { x with vote := v2 } else x) } := by
        have hfw1 : (politicianUpsert s' n2 party2).1.votes.find?
            (fun x => x.session_id == sess2 && x.politician_id == qq.id) = some w := by
          rw [politicianUpsert_votes]
          exact hfw'
        have hpid2 : (politicianUpsert s' n2 party2).2 = qq.id := by
          rw [politicianUpsert_found s' n2 party2 hfq]
        show (voteUpsert false (politicianUpsert s' n2 party2).1 sess2
            (politicianUpsert s' n2 party2).2 v2).1 = _
        rw [hpid2, voteUpsert_update hfw1 false v2,
          politicianUpsert_found s' n2 party2 hfq]
        simp only [hqid, hwid]
      rw [happ, happ']
      refine ih _ _ ?_ ?_ ?_ ?_ ?_ ?_ ?_ ?_ ?_
      · rw [← happ]
        exact applyOp_inv s _ hinv
      · intro op hop
        exact weak_settled_rewrite s p.id vr.id party2 v2 op
          (hws op (List.mem_cons_of_mem _ hop))
      · exact hsess
      · exact htw
      · exact hnp
      · exact hnv
      · exact hck
      · refine forall₂_map_both _ _ hpols (fun a b ha hb hab => ?_)
        by_cases hc : a.id = p.id
        · have hcb : b.id = p.id := by rw [← hab.1]; exact hc
          rw [if_pos hc, if_pos hcb]
          exact ⟨hab.1, hab.2.1, hab.2.2.1, hab.2.2.2.1, fun hne => absurd rfl hne⟩
        · have hcb : ¬ b.id = p.id := by rw [← hab.1]; exact hc
          rw [if_neg hc, if_neg hcb]
          obtain ⟨h1, h2, h3, h4, h5⟩ := hab
          refine ⟨h1, h2, h3, h4, fun hne => ?_⟩
          obtain ⟨op, hop, hwop⟩ := h5 hne
          rcases List.mem_cons.mp hop with rfl | hmem
          · exfalso
            have hw' : resolvedPid s n2 = a.id := hwop
            rw [resolvedPid_of_find hfp] at hw'
            exact hc hw'.symm
          · exact ⟨op, hmem, opWritesParty_rewrite s p.id vr.id party2 v2 op a.id hwop⟩
      · refine forall₂_map_both _ _ hvotes (fun x y hx hy hxy => ?_)
        by_cases hc : x.id = vr.id
        · have hcb : y.id = vr.id := by rw [← hxy.1]; exact hc
          rw [if_pos hc, if_pos hcb]
          exact ⟨hxy.1, hxy.2.1, hxy.2.2.1, hxy.2.2.2.1, fun hne => absurd rfl hne⟩
        · have hcb : ¬ y.id = vr.id := by rw [← hxy.1]; exact hc
          rw [if_neg hc, if_neg hcb]
          obtain ⟨h1, h2, h3, h4, h5⟩ := hxy
          refine ⟨h1, h2, h3, h4, fun hne => ?_⟩
          obtain ⟨op, hop, hwop⟩ := h5 hne
          rcases List.mem_cons.mp hop with rfl | hmem
          · exfalso
            obtain ⟨hw1, hw2⟩ := hwop
            rw [resolvedPid_of_find hfp] at hw2
            have hvrmem : vr ∈ s.votes := List.mem_of_find?_eq_some hfv
            have hprops := List.find?_some hfv
            simp only [Bool.and_eq_true, beq_iff_eq] at hprops
            have hxvr : x = vr := pairUnique_eq hinv.2.2.1 hx hvrmem
              (hw2.symm.trans hprops.2.symm) (hw1.symm.trans hprops.1.symm)
            exact hc (by rw [hxvr])
          · exact ⟨op, hmem, opWritesVote_rewrite s p.id vr.id party2 v2 op
              x.politician_id x.session_id hwop⟩

/-- Re-applying a weakly settled vote call whose field disagreements are
all covered by later writes is absorbed by the rest of the replay. -/
theorem applyOp_vote_converges (rest : List IngestOp) (m : DB) (sess : Nat)
    (name party v : String) (hinvm : DBInv m)
    (hws : ∀ op ∈ rest, weakSettledOp m op)
    {p : PoliticianRow} (hfp : findPolitician m name = some p)
    {vr : VoteRow} (hfv : m.votes.find?
      (fun x => x.session_id == sess && x.politician_id == p.id) = some vr)
    (hpartyOK : ∀ qq ∈ m.politicians, qq.id = p.id → qq.party ≠ party →
      partyWriter rest m p.id)
    (hvoteOK : ∀ y ∈ m.votes, y.politician_id = p.id → y.session_id = sess →
      y.vote ≠ v → voteWriter rest m p.id sess) :
    applyBatch (applyOp m (IngestOp.vote sess name party v)) rest =
      applyBatch m rest := by
  have happ : applyOp m (IngestOp.vote sess name party v) =
      { m with
        politicians := m.politicians.map
          (fun y => if y.id = p.id then { y with party := party } else y),
        votes := m.votes.map
          (fun x => if x.id = vr.id then { x with vote := v } else x) } := by
    have hfv1 : (politicianUpsert m name party).1.votes.find?
        (fun x => x.session_id == sess && x.politician_id == p.id) = some vr := by
      rw [politicianUpsert_votes]
      exact hfv
    have hpid2 : (politicianUpsert m name party).2 = p.id := by
      rw [politicianUpsert_found m name party hfp]
    show (voteUpsert false (politicianUpsert m name party).1 sess
        (politicianUpsert m name party).2 v).1 = _
    rw [hpid2, voteUpsert_update hfv1 false v,
      politicianUpsert_found m name party hfp]
  rw [happ]
  refine (batch_converges rest m _ hinvm hws ?_ ?_ ?_ ?_ ?_ ?_ ?_).symm
  · rfl
  · rfl
  · rfl
  · rfl
  · rfl
  · refine forall₂_map_self _ _ (fun a ha => ?_)
    by_cases hc : a.id = p.id
    · rw [if_pos hc]
      refine ⟨rfl, rfl, rfl, rfl, fun hne => ?_⟩
      rw [hc]
      exact hpartyOK a ha hc hne
    · rw [if_neg hc]
      exact ⟨rfl, rfl, rfl, rfl, fun hne => absurd rfl hne⟩
  · refine forall₂_map_self _ _ (fun x hx => ?_)
    by_cases hc : x.id = vr.id
    · rw [if_pos hc]
      refine ⟨rfl, rfl, rfl, rfl, fun hne => ?_⟩
      have hvrmem : vr ∈ m.votes := List.mem_of_find?_eq_some hfv
      have hxvr : x = vr := List.inj_on_of_nodup_map hinvm.1 hx hvrmem hc
      have hprops := List.find?_some hfv
      simp only [Bool.and_eq_true, beq_iff_eq] at hprops
      have h1 : x.politician_id = p.id := by rw [hxvr]; exact hprops.2
      have h2 : x.session_id = sess := by rw [hxvr]; exact hprops.1
      rw [h1, h2]
      exact hvoteOK x hx h1 h2 hne
    · rw [if_neg hc]
      exact ⟨rfl, rfl, rfl, rfl, fun hne => absurd rfl hne⟩

/-! ### Batch idempotence -/

/-- C3: applying the same ingestion batch — a sequence of
`saveVotingSession`, `saveVote` and `saveTweetsToDatabase` calls with
identical inputs — twice to a well-formed state leaves the database in
exactly the state of applying it once: identical rows and field values
for sessions, politicians, votes and tweets, including the derived
vote_count. This holds for ARBITRARY call sequences: on the second run no
call inserts anything (every row it would create already exists), and
each party or vote field a call rewrites either already holds the written
value or is rewritten to its end value by the remainder of the replay, so
the end state re-converges. -/
theorem ingestion_batch_idempotent (db : DB) (batch : List IngestOp) (hinv : DBInv db) :
    applyBatch (applyBatch db batch) batch = applyBatch db batch := by
  induction batch generalizing db with
  | nil => rfl
  | cons op rest ih =>
    have hinv' : DBInv (applyOp db op) := applyOp_inv db op hinv
    have hIH : applyBatch (applyBatch (applyOp db op) rest) rest =
        applyBatch (applyOp db op) rest := ih (applyOp db op) hinv'
    have hinvm : DBInv (applyBatch (applyOp db op) rest) :=
      applyBatch_inv rest (applyOp db op) hinv'
    have hwm : weakSettledOp (applyBatch (applyOp db op) rest) op :=
      weak_settled_through rest (applyOp db op) op
        (settled_imp_weak (applyOp db op) op (applyOp_settles db op))
    show applyBatch (applyOp (applyBatch (applyOp db op) rest) op) rest =
      applyBatch (applyOp db op) rest
    cases op with
    | session sid title date =>
      have hno : applyOp (applyBatch (applyOp db (IngestOp.session sid title date)) rest)
          (IngestOp.session sid title date) =
          applyBatch (applyOp db (IngestOp.session sid title date)) rest :=
        session_noop _ sid title date hwm
      rw [hno]
      exact hIH
    | tweets tweetData pid =>
      have hno : applyOp (applyBatch (applyOp db (IngestOp.tweets tweetData pid)) rest)
          (IngestOp.tweets tweetData pid) =
          applyBatch (applyOp db (IngestOp.tweets tweetData pid)) rest :=
        tweets_noop _ tweetData pid hwm
      rw [hno]
      exact hIH
    | vote sess name party v =>
      obtain ⟨p, hfp, vr, hfv⟩ := hwm
      obtain ⟨p0, hfp0, hparty0, vr0, hfv0, hvote0⟩ :=
        applyOp_settles db (IngestOp.vote sess name party v)
      obtain ⟨pp, hfpp, hppid⟩ := resolvesTo_batch rest
        (applyOp db (IngestOp.vote sess name party v)) ⟨p0, hfp0, rfl⟩
      rw [hfp] at hfpp
      have hpid0 : p.id = p0.id := by
        rw [Option.some.inj hfpp]
        exact hppid
      have hws : ∀ op' ∈ rest, weakSettledOp
          (applyBatch (applyOp db (IngestOp.vote sess name party v)) rest) op' :=
        fun op' hop' => weak_batch_settles rest
          (applyOp db (IngestOp.vote sess name party v)) op' hop'
      have hpartyOK : ∀ qq ∈ (applyBatch (applyOp db (IngestOp.vote sess name party v))
          rest).politicians, qq.id = p.id → qq.party ≠ party →
          partyWriter rest (applyBatch (applyOp db (IngestOp.vote sess name party v)) rest)
            p.id := by
        intro qq hqq hqid hne
        by_cases hw : partyWriter rest
            (applyBatch (applyOp db (IngestOp.vote sess name party v)) rest) p.id
        · exact hw
        · exfalso
          apply hne
          have hseedP : ∀ y ∈ (applyOp db (IngestOp.vote sess name party v)).politicians,
              y.id = p0.id → y.party = party := by
            intro y hy hyid
            have hy0 : y = p0 := List.inj_on_of_nodup_map hinv'.2.2.2.1 hy
              (findPolitician_mem hfp0) hyid
            rw [hy0]
            exact hparty0
          have hw' : ¬ partyWriter rest
              (applyBatch (applyOp db (IngestOp.vote sess name party v)) rest) p0.id := by
            rw [← hpid0]
            exact hw
          exact party_persists rest (applyOp db (IngestOp.vote sess name party v)) p0.id
            party hinv' ⟨p0, findPolitician_mem hfp0, rfl⟩ hseedP hw' qq hqq
            (hqid.trans hpid0)
      have hvoteOK : ∀ y ∈ (applyBatch (applyOp db (IngestOp.vote sess name party v))
          rest).votes, y.politician_id = p.id → y.session_id = sess → y.vote ≠ v →
          voteWriter rest (applyBatch (applyOp db (IngestOp.vote sess name party v)) rest)
            p.id sess := by
        intro y hy h1 h2 hne
        by_cases hw : voteWriter rest
            (applyBatch (applyOp db (IngestOp.vote sess name party v)) rest) p.id sess
        · exact hw
        · exfalso
          apply hne
          have hseedV : ∀ z ∈ (applyOp db (IngestOp.vote sess name party v)).votes,
              z.politician_id = p0.id → z.session_id = sess → z.vote = v := by
            intro z hz hz1 hz2
            have hvr0mem : vr0 ∈ (applyOp db (IngestOp.vote sess name party v)).votes :=
              List.mem_of_find?_eq_some hfv0
            have hvr0props := List.find?_some hfv0
            simp only [Bool.and_eq_true, beq_iff_eq] at hvr0props
            have hz0 : z = vr0 := pairUnique_eq hinv'.2.2.1 hz hvr0mem
              (hz1.trans hvr0props.2.symm) (hz2.trans hvr0props.1.symm)
            rw [hz0]
            exact hvote0
          have hw' : ¬ voteWriter rest
              (applyBatch (applyOp db (IngestOp.vote sess name party v)) rest) p0.id
              sess := by
            rw [← hpid0]
            exact hw
          exact vote_persists rest (applyOp db (IngestOp.vote sess name party v)) p0.id
            sess v hinv' hseedV hw' y hy (h1.trans hpid0) h2
      have habs := applyOp_vote_converges rest
        (applyBatch (applyOp db (IngestOp.vote sess name party v)) rest) sess name party v
        hinvm hws hfp hfv hpartyOK hvoteOK
      rw [habs]
      exact hIH

/-- Witness for C3: a concrete batch containing two CONFLICTING vote
calls — the same politician under case-varying names with different
parties and different vote values for one session — plus a session create
and a tweet save, applied twice to the empty database, equals applying it
once. -/
theorem ingestion_batch_idempotent_witness :
    applyBatch (applyBatch ⟨[], [], [], [], 1, 1, 0⟩
        [IngestOp.session "7" "Budget" "2024-01-01",
         IngestOp.vote 7 "Alice" "P" "yes",
         IngestOp.vote 7 "alice" "Q" "no",
         IngestOp.tweets [⟨"t1", "hello", "2024"⟩] 1])
        [IngestOp.session "7" "Budget" "2024-01-01",
         IngestOp.vote 7 "Alice" "P" "yes",
         IngestOp.vote 7 "alice" "Q" "no",
         IngestOp.tweets [⟨"t1", "hello", "2024"⟩] 1] =
      applyBatch ⟨[], [], [], [], 1, 1, 0⟩
        [IngestOp.session "7" "Budget" "2024-01-01",
         IngestOp.vote 7 "Alice" "P" "yes",
         IngestOp.vote 7 "alice" "Q" "no",
         IngestOp.tweets [⟨"t1", "hello", "2024"⟩] 1] :=
  ingestion_batch_idempotent ⟨[], [], [], [], 1, 1, 0⟩
    [IngestOp.session "7" "Budget" "2024-01-01",
     IngestOp.vote 7 "Alice" "P" "yes",
     IngestOp.vote 7 "alice" "Q" "no",
     IngestOp.tweets [⟨"t1", "hello", "2024"⟩] 1]
    (by decide)

end VoxEngine
